import Mathlib

/-!
Verification development for the Orpheus audio engine core.

This file shallowly embeds the components of the engine that the spec's
testable claims are about: the voice pool (src/src/VoicePool.cpp), the
mix-zone arbitration in the tick orchestrator (src/src/AudioManager.cpp),
the occlusion processor (src/src/OcclusionProcessor.cpp), the sound bank
JSON loading (src/src/SoundBank.cpp), and the sidechain ducker
(src/src/Ducker.cpp).

Modelling conventions:
  - C++ float values are modelled as rationals.  The transcendental
    functions the source takes from the C math library (sqrtf, std::exp,
    std::log10, std::pow) are not repository code; they are passed in as
    an uninterpreted function record CMath, and every theorem quantifies
    over all interpretations of that record.  All purely algebraic float
    arithmetic is translated exactly.
  - unordered maps keyed by strings are modelled as association lists
    whose insert overwrites the previous binding of the key.
  - external callbacks (the raycast oracle, the ducker sidechain query)
    are modelled as function-valued inputs, mirroring the std function
    fields of the source.
-/

namespace Orpheus

/-- Record of the C math library functions the engine calls.  These live
outside the repository (libm), so they are kept abstract; theorems hold
for every interpretation. -/
structure CMath where
  sqrt : ℚ → ℚ
  exp : ℚ → ℚ
  log10 : ℚ → ℚ
  pow : ℚ → ℚ → ℚ

/-- Model of Types.h Vector3 (three floats). -/
structure Vec3 where
  x : ℚ
  y : ℚ
  z : ℚ
deriving DecidableEq

/-- Model of std clamp as used by the source: lower bound wins first,
then the upper bound. -/
def cppClamp (v lo hi : ℚ) : ℚ :=
  if v < lo then lo else if hi < v then hi else v

/-- Voice.h VoiceState. -/
inductive VoiceState where
  | real
  | virt
  | stopped
deriving DecidableEq

/-- Voice.h StealBehavior. -/
inductive StealBehavior where
  | oldest
  | furthest
  | quietest
  | noSteal
deriving DecidableEq

/-- DistanceCurve.h DistanceCurve. -/
inductive DistanceCurve where
  | linear
  | logarithmic
  | inverseSquare
  | exponential
  | custom
deriving DecidableEq

/-- DistanceCurve.h DistanceSettings.  The customCurve std function is
empty by default; an empty std function is modelled as none. -/
structure DistanceSettings where
  curve : DistanceCurve := .linear
  minDistance : ℚ := 1
  maxDistance : ℚ := 100
  rolloffFactor : ℚ := 1
  customCurve : Option (ℚ → ℚ) := none

/-- DistanceCurve.h CalculateAttenuation, translated branch for branch. -/
def CalculateAttenuation (m : CMath) (distance : ℚ) (s : DistanceSettings) : ℚ :=
  if distance ≤ s.minDistance then 1
  else if s.maxDistance ≤ distance then 0
  else
    let range := s.maxDistance - s.minDistance
    let normalizedDist := (distance - s.minDistance) / range
    let normalizedDist := min (normalizedDist * s.rolloffFactor) 1
    let attenuation :=
      match s.curve with
      | .linear => 1 - normalizedDist
      | .logarithmic => 1 - m.log10 (1 + 9 * normalizedDist)
      | .inverseSquare => 1 / (1 + normalizedDist * normalizedDist * 4)
      | .exponential => m.exp (-normalizedDist * 3)
      | .custom =>
          match s.customCurve with
          | some f => f normalizedDist
          | none => 1 - normalizedDist
    max 0 (min 1 attenuation)

/-- Voice.h Voice.  The reverbSends map and the marker list are never
touched by any operation modelled here and are omitted; every other
field is carried with its source default. -/
structure Voice where
  id : ℕ := 0
  eventName : String := ""
  handle : ℕ := 0
  state : VoiceState := .stopped
  priority : ℕ := 128
  position : Vec3 := ⟨0, 0, 0⟩
  velocity : Vec3 := ⟨0, 0, 0⟩
  distanceSettings : DistanceSettings := {}
  dopplerPitch : ℚ := 1
  volume : ℚ := 1
  audibility : ℚ := 1
  playbackTime : ℚ := 0
  startTime : ℚ := 0
  obstruction : ℚ := 0
  occlusion : ℚ := 0
  occlusionSmoothed : ℚ := 0
  targetLowPassFreq : ℚ := 22000
  currentLowPassFreq : ℚ := 22000
  occlusionVolume : ℚ := 1

/-- Voice.h GetDistance: euclidean distance to the listener. -/
def Voice.getDistance (m : CMath) (v : Voice) (listenerPos : Vec3) : ℚ :=
  let dx := v.position.x - listenerPos.x
  let dy := v.position.y - listenerPos.y
  let dz := v.position.z - listenerPos.z
  m.sqrt (dx * dx + dy * dy + dz * dz)

/-- Voice.h UpdateAudibility. -/
def Voice.updateAudibility (m : CMath) (v : Voice) (listenerPos : Vec3) : Voice :=
  let dist := v.getDistance m listenerPos
  { v with audibility := v.volume * CalculateAttenuation m dist v.distanceSettings }

/-- VoicePool state (src/src/VoicePool.cpp).  Voices are stored behind
stable pointers in the source; pointers are modelled as indices into the
voices list. -/
structure VoicePool where
  voices : List Voice := []
  maxRealVoices : ℕ
  nextVoiceID : ℕ := 1
  currentTime : ℚ := 0
  stealBehavior : StealBehavior := .quietest

/-- Fresh pool as built by the VoicePool constructor. -/
def VoicePool.init (maxReal : ℕ) : VoicePool := { maxRealVoices := maxReal }

/-- Number of voices whose state is Real (VoicePool GetRealVoiceCount). -/
def countReal (l : List Voice) : ℕ :=
  (l.filter fun v => v.state = .real).length

def VoicePool.GetRealVoiceCount (p : VoicePool) : ℕ := countReal p.voices

/-- Number of voices whose state is Virtual (GetVirtualVoiceCount). -/
def VoicePool.GetVirtualVoiceCount (p : VoicePool) : ℕ :=
  (p.voices.filter fun v => v.state = .virt).length

/-- Replace the voice at an index, leaving the list unchanged when the
index is out of range (a pointer always targets a live slot). -/
def modifyVoice (l : List Voice) (i : ℕ) (f : Voice → Voice) : List Voice :=
  match l[i]? with
  | some v => l.set i (f v)
  | none => l

/-- Index of the first Stopped slot (VoicePool FindFreeVoice). -/
def findFreeIdx : List Voice → Option ℕ
  | [] => none
  | v :: rest =>
      if v.state = .stopped then some 0 else (findFreeIdx rest).map (· + 1)

def VoicePool.findFreeVoice (p : VoicePool) : Option ℕ :=
  findFreeIdx p.voices

/-- Field assignments performed by AllocateVoice on the chosen slot.
Fields it does not assign (volume, audibility, handle, occlusion state)
keep whatever the reused slot held, exactly as in the source. -/
def allocAssign (p : VoicePool) (eventName : String) (priority : ℕ)
    (position : Vec3) (ds : DistanceSettings) (v : Voice) : Voice :=
  { v with
    id := p.nextVoiceID
    eventName := eventName
    priority := priority
    position := position
    distanceSettings := ds
    playbackTime := 0
    startTime := p.currentTime
    state := .virt }

/-- VoicePool AllocateVoice.  Returns the updated pool and the index of
the slot the returned pointer refers to. -/
def VoicePool.AllocateVoice (p : VoicePool) (eventName : String) (priority : ℕ)
    (position : Vec3) (ds : DistanceSettings) : VoicePool × ℕ :=
  match p.findFreeVoice with
  | some i =>
      ({ p with
          voices := modifyVoice p.voices i (allocAssign p eventName priority position ds)
          nextVoiceID := p.nextVoiceID + 1 }, i)
  | none =>
      ({ p with
          voices := p.voices ++ [allocAssign p eventName priority position ds {}]
          nextVoiceID := p.nextVoiceID + 1 }, p.voices.length)

/-- Score computed by the steal-behavior switch in FindVoiceToSteal. -/
def stealScore (b : StealBehavior) (v : Voice) : ℚ :=
  match b with
  | .oldest => -v.startTime
  | .furthest => -v.audibility
  | .quietest => v.audibility
  | .noSteal => 0

/-- Loop of VoicePool FindVoiceToSteal over the voices with their
indices.  The float max sentinel for victimScore is modelled as none
(every candidate score beats it).  The noSteal case returns from the
whole function as in the source. -/
def findStealLoop (b : StealBehavior) (np : ℕ) (na : ℚ) :
    List (ℕ × Voice) → Option (ℕ × Voice) → Option ℚ → Option ℕ
  | [], best, _ => best.map (·.1)
  | (i, v) :: rest, best, bestScore =>
    if v.state ≠ .real then
      findStealLoop b np na rest best bestScore
    else if np < v.priority then
      findStealLoop b np na rest best bestScore
    else if v.priority = np ∧ na ≤ v.audibility then
      findStealLoop b np na rest best bestScore
    else if b = .noSteal then
      none
    else
      let score := stealScore b v
      if (bestScore.all fun s => decide (score < s)) ||
         (best.any fun w => decide (v.priority < w.2.priority)) then
        findStealLoop b np na rest (some (i, v)) (some score)
      else
        findStealLoop b np na rest best bestScore

/-- Voices paired with their slot indices, starting at a given index. -/
def withIdx : List Voice → ℕ → List (ℕ × Voice)
  | [], _ => []
  | v :: rest, n => (n, v) :: withIdx rest (n + 1)

/-- VoicePool FindVoiceToSteal. -/
def VoicePool.FindVoiceToSteal (p : VoicePool) (np : ℕ) (na : ℚ) : Option ℕ :=
  findStealLoop p.stealBehavior np na (withIdx p.voices 0) none none

/-- VoicePool MakeReal on the voice pointed at by index i.  The null
pointer corresponds to an out-of-range index. -/
def VoicePool.MakeReal (p : VoicePool) (i : ℕ) : VoicePool × Bool :=
  match p.voices[i]? with
  | none => (p, false)
  | some v =>
    if v.state = .real then (p, true)
    else if p.GetRealVoiceCount < p.maxRealVoices then
      ({ p with voices := modifyVoice p.voices i fun w => { w with state := .real } }, true)
    else
      match p.FindVoiceToSteal v.priority v.audibility with
      | some j =>
          let voices := modifyVoice p.voices j fun w => { w with state := .virt, handle := 0 }
          ({ p with voices := modifyVoice voices i fun w => { w with state := .real } }, true)
      | none => (p, false)

/-- VoicePool MakeVirtual. -/
def VoicePool.MakeVirtual (p : VoicePool) (i : ℕ) : VoicePool :=
  match p.voices[i]? with
  | some v =>
      if v.state = .real then
        { p with voices := modifyVoice p.voices i fun w => { w with state := .virt, handle := 0 } }
      else p
  | none => p

/-- VoicePool StopVoice. -/
def VoicePool.StopVoice (p : VoicePool) (i : ℕ) : VoicePool :=
  match p.voices[i]? with
  | some _ =>
      { p with voices := modifyVoice p.voices i fun w => { w with state := .stopped, handle := 0 } }
  | none => p

/-- Stable insertion producing the descending-audibility order; this is
one outcome std sort may produce with the strict greater comparator the
source passes. -/
def insertByAud (x : ℕ × Voice) : List (ℕ × Voice) → List (ℕ × Voice)
  | [] => [x]
  | y :: ys =>
      if y.2.audibility < x.2.audibility then x :: y :: ys
      else y :: insertByAud x ys

def sortByAudDesc : List (ℕ × Voice) → List (ℕ × Voice)
  | [] => []
  | x :: xs => insertByAud x (sortByAudDesc xs)

/-- Promotion loop of PromoteVirtualVoices: stop as soon as the real
budget is filled, promote candidates with audibility above 0.01. -/
def promoteLoop (p : VoicePool) : List ℕ → VoicePool
  | [] => p
  | i :: rest =>
    if p.maxRealVoices ≤ p.GetRealVoiceCount then p
    else
      match p.voices[i]? with
      | some v =>
          if 1/100 < v.audibility then
            promoteLoop { p with voices := modifyVoice p.voices i fun w => { w with state := .real } } rest
          else promoteLoop p rest
      | none => promoteLoop p rest

/-- VoicePool PromoteVirtualVoices. -/
def VoicePool.PromoteVirtualVoices (p : VoicePool) : VoicePool :=
  let virtualVoices := (withIdx p.voices 0).filter fun iv => iv.2.state = .virt
  promoteLoop p ((sortByAudDesc virtualVoices).map (·.1))

/-- VoicePool Update: advance pool time, advance playback time and
recompute audibility of every non-stopped voice, then promote. -/
def VoicePool.Update (m : CMath) (p : VoicePool) (dt : ℚ) (listenerPos : Vec3) : VoicePool :=
  let p1 : VoicePool :=
    { p with
      currentTime := p.currentTime + dt
      voices := p.voices.map fun v =>
        if v.state = .stopped then v
        else Voice.updateAudibility m { v with playbackTime := v.playbackTime + dt } listenerPos }
  p1.PromoteVirtualVoices

/-- Client-visible pool operations (the ones claim C1 ranges over). -/
inductive PoolOp where
  | alloc (eventName : String) (priority : ℕ) (position : Vec3) (ds : DistanceSettings)
  | makeReal (i : ℕ)
  | makeVirtual (i : ℕ)
  | stop (i : ℕ)
  | update (dt : ℚ) (listenerPos : Vec3)

def applyOp (m : CMath) (p : VoicePool) : PoolOp → VoicePool
  | .alloc e pr pos ds => (p.AllocateVoice e pr pos ds).1
  | .makeReal i => (p.MakeReal i).1
  | .makeVirtual i => p.MakeVirtual i
  | .stop i => p.StopVoice i
  | .update dt lpos => p.Update m dt lpos

def runOps (m : CMath) (p : VoicePool) (ops : List PoolOp) : VoicePool :=
  ops.foldl (applyOp m) p

/-! ### Sound bank (src/src/SoundBank.cpp)

The JSON values handed to RegisterEventFromJson are modelled as parsed
trees; the string round trip through dump and parse inside
LoadFromJsonFile is the identity on parsed values.  nlohmann type errors
are thrown and caught by the surrounding try block, which converts every
exception into JsonParseError, so each accessor below returns that code
on a type mismatch. -/

inductive Json where
  | null
  | bool (b : Bool)
  | num (q : ℚ)
  | str (s : String)
  | arr (elems : List Json)
  | obj (fields : List (String × Json))

deriving instance DecidableEq for Except

/-- Error.h ErrorCode (the constructors the sound bank can produce). -/
inductive ErrorCode where
  | fileNotFound
  | jsonParseError
  | invalidFormat
  | eventNotFound
deriving DecidableEq

/-- SoundBank.h PlaylistMode. -/
inductive PlaylistMode where
  | single
  | sequential
  | shuffle
  | random
deriving DecidableEq

/-- SoundBank.h EventDescriptor with its member initialisers. -/
structure EventDescriptor where
  name : String := ""
  path : String := ""
  bus : String := ""
  volumeMin : ℚ := 1
  volumeMax : ℚ := 1
  pitchMin : ℚ := 1
  pitchMax : ℚ := 1
  stream : Bool := false
  priority : ℕ := 128
  maxDistance : ℚ := 100
  parameters : List (String × String) := []
  sounds : List String := []
  playlistMode : PlaylistMode := .single
  loopPlaylist : Bool := false
  interval : ℚ := 0
  startDelay : ℚ := 0
deriving DecidableEq

/-- First binding of a key in an association list. -/
def lookupStr {α : Type} : List (String × α) → String → Option α
  | [], _ => none
  | (k, v) :: rest, key => if k = key then some v else lookupStr rest key

/-- Binding update that overwrites the previous binding of the key
(unordered map insertion). -/
def insertStr {α : Type} : List (String × α) → String → α → List (String × α)
  | [], k, v => [(k, v)]
  | (k0, v0) :: rest, k, v =>
      if k0 = k then (k, v) :: rest else (k0, v0) :: insertStr rest k v

/-- Key lookup on a JSON object (nlohmann contains plus operator[]). -/
def Json.find? (j : Json) (key : String) : Option Json :=
  match j with
  | .obj fields => lookupStr fields key
  | _ => none

def Json.isArr : Json → Bool
  | .arr _ => true
  | _ => false

/-- nlohmann get of a string; any other stored type throws. -/
def jGetStr : Json → Except ErrorCode String
  | .str s => .ok s
  | _ => .error .jsonParseError

/-- nlohmann get of an arithmetic value; booleans and the rest throw. -/
def jGetNum : Json → Except ErrorCode ℚ
  | .num q => .ok q
  | _ => .error .jsonParseError

/-- nlohmann value with a string default. -/
def Json.valueStr (j : Json) (key : String) (dflt : String) : Except ErrorCode String :=
  match j.find? key with
  | none => .ok dflt
  | some v => jGetStr v

/-- nlohmann value with a bool default. -/
def Json.valueBool (j : Json) (key : String) (dflt : Bool) : Except ErrorCode Bool :=
  match j.find? key with
  | none => .ok dflt
  | some (.bool b) => .ok b
  | some _ => .error .jsonParseError

/-- nlohmann value with a numeric default. -/
def Json.valueNum (j : Json) (key : String) (dflt : ℚ) : Except ErrorCode ℚ :=
  match j.find? key with
  | none => .ok dflt
  | some (.num q) => .ok q
  | some _ => .error .jsonParseError

/-- C++ float-to-int conversion truncates toward zero. -/
def ratTruncInt (q : ℚ) : ℤ :=
  if 0 ≤ q then ⌊q⌋ else ⌈q⌉

/-- static_cast to uint8_t reduces the integer modulo 256. -/
def toUInt8Wrap (n : ℤ) : ℕ := (n % 256).toNat

/-- nlohmann value with an int default followed by the uint8_t cast. -/
def Json.valueIntCast (j : Json) (key : String) (dflt : ℤ) : Except ErrorCode ℤ :=
  match j.find? key with
  | none => .ok dflt
  | some (.num q) => .ok (ratTruncInt q)
  | some _ => .error .jsonParseError

/-- The volume and pitch blocks of RegisterEventFromJson: an array with
at least two entries yields its first two numbers, a plain number yields
the pair of itself, anything else silently keeps the defaults. -/
def jRangePair (j : Json) (key : String) : Except ErrorCode (ℚ × ℚ) :=
  match j.find? key with
  | some (.arr (a :: b :: _)) =>
      (match jGetNum a with
       | .error e => .error e
       | .ok x =>
         match jGetNum b with
         | .error e => .error e
         | .ok y => .ok (x, y))
  | some (.num q) => .ok (q, q)
  | _ => .ok (1, 1)

/-- Traversal of the parameters object; a non-string value throws. -/
def parseParams : List (String × Json) → Except ErrorCode (List (String × String))
  | [] => .ok []
  | (k, v) :: rest =>
      match jGetStr v with
      | .error e => .error e
      | .ok s =>
        match parseParams rest with
        | .error e => .error e
        | .ok r => .ok ((k, s) :: r)

/-- The parameters block of RegisterEventFromJson: traverse the object
when present, otherwise leave the map empty. -/
def paramsBlock (j : Json) : Except ErrorCode (List (String × String)) :=
  match j.find? "parameters" with
  | some (.obj kvs) => parseParams kvs
  | _ => .ok []

/-- SoundBank RegisterEventFromJson on a parsed value, translated
statement for statement; the playlist fields of the descriptor are never
assigned by the source, so they keep their member initialisers. -/
def registerEventFromJsonValue (j : Json) : Except ErrorCode EventDescriptor :=
  match j.valueStr "name" "" with
  | .error e => .error e
  | .ok name =>
  match j.valueStr "sound" "" with
  | .error e => .error e
  | .ok path =>
  match j.valueStr "bus" "Master" with
  | .error e => .error e
  | .ok bus =>
  match jRangePair j "volume" with
  | .error e => .error e
  | .ok (vmin, vmax) =>
  match jRangePair j "pitch" with
  | .error e => .error e
  | .ok (pmin, pmax) =>
  match j.valueBool "stream" false with
  | .error e => .error e
  | .ok stream =>
  match j.valueIntCast "priority" 128 with
  | .error e => .error e
  | .ok prio =>
  match j.valueNum "maxDistance" 100 with
  | .error e => .error e
  | .ok maxDistance =>
  match paramsBlock j with
  | .error e => .error e
  | .ok params =>
  if name = "" then .error .invalidFormat
  else .ok { name := name, path := path, bus := bus,
             volumeMin := vmin, volumeMax := vmax,
             pitchMin := pmin, pitchMax := pmax,
             stream := stream, priority := toUInt8Wrap prio,
             maxDistance := maxDistance, parameters := params }

/-- Registry of the sound bank: event name to descriptor. -/
def SoundBank := List (String × EventDescriptor)

/-- SoundBank RegisterEvent: duplicate names overwrite. -/
def SoundBank.registerEvent (bank : SoundBank) (ed : EventDescriptor) : SoundBank :=
  insertStr bank ed.name ed

/-- Loop of LoadFromJsonFile over a top-level array: register each
object, stopping at the first error. -/
def loadArray (bank : SoundBank) : List Json → SoundBank × Except ErrorCode Unit
  | [] => (bank, .ok ())
  | x :: rest =>
      match registerEventFromJsonValue x with
      | .ok ed => loadArray (bank.registerEvent ed) rest
      | .error e => (bank, .error e)

/-- SoundBank LoadFromJsonFile after the file has been read and parsed:
only a top-level array registers anything; any other parsed value
returns Ok untouched. -/
def loadFromJsonValue (bank : SoundBank) (j : Json) : SoundBank × Except ErrorCode Unit :=
  match j with
  | .arr xs => loadArray bank xs
  | _ => (bank, .ok ())

/-- Bank state after registering a list of objects, ignoring failures
(used to describe the state loadArray stops in). -/
def regList : SoundBank → List Json → SoundBank
  | bank, [] => bank
  | bank, x :: xs =>
      regList
        (match registerEventFromJsonValue x with
         | .ok ed => bank.registerEvent ed
         | .error _ => bank) xs

/-! ### Bus (src/src/Bus.cpp, the volume state of BusImpl) -/

structure Bus where
  volume : ℚ := 1
  targetVolume : ℚ := 1
  startVolume : ℚ := 1
  fadeTime : ℚ := 0
deriving DecidableEq

/-- Bus SetVolume: immediate, cancels any fade. -/
def Bus.setVolume (b : Bus) (v : ℚ) : Bus :=
  { b with volume := v, targetVolume := v, fadeTime := 0 }

/-- Bus SetTargetVolume: start a fade from the current volume; a
non-positive fade time becomes 0.001. -/
def Bus.setTargetVolume (b : Bus) (v fade : ℚ) : Bus :=
  { b with startVolume := b.volume, targetVolume := v,
           fadeTime := if 0 < fade then fade else 1/1000 }

/-! ### Ducker (src/src/Ducker.cpp) -/

structure DuckingRule where
  targetBus : String
  sidechainBus : String
  duckLevel : ℚ := 3/10
  attackTime : ℚ := 1/10
  releaseTime : ℚ := 1/2
  holdTime : ℚ := 1/10
deriving DecidableEq

structure DuckingState where
  active : Bool := false
  currentLevel : ℚ := 1
  holdTimer : ℚ := 0
deriving DecidableEq

/-- Ducker MakeKey: target and sidechain joined by a colon. -/
def makeKey (target sidechain : String) : String := target ++ ":" ++ sidechain

def keyOf (r : DuckingRule) : String := makeKey r.targetBus r.sidechainBus

structure Ducker where
  rules : List DuckingRule := []
  states : List (String × DuckingState) := []
deriving DecidableEq

/-- Ducker AddRule: ignore an existing target and sidechain pair, else
append the rule and reset the state stored under its key. -/
def Ducker.addRule (d : Ducker) (rule : DuckingRule) : Ducker :=
  if d.rules.any fun ex =>
      ex.targetBus == rule.targetBus && ex.sidechainBus == rule.sidechainBus then d
  else
    { rules := d.rules ++ [rule],
      states := insertStr d.states (keyOf rule) {} }

/-- Lookup of an unordered-map entry where operator[] would
default-construct a missing one. -/
def lookupD (states : List (String × DuckingState)) (k : String) : DuckingState :=
  (lookupStr states k).getD {}

/-- Per-rule state transition of Ducker Update: attack while the
sidechain is active, then hold, then release. -/
def stepState (rule : DuckingRule) (state : DuckingState) (dt : ℚ)
    (sidechainActive : Bool) : DuckingState :=
  if sidechainActive then
    let state := { state with active := true, holdTimer := rule.holdTime }
    let attackRate := 1 / max rule.attackTime (1/1000)
    let lvl := state.currentLevel - attackRate * dt
    { state with currentLevel := max lvl rule.duckLevel }
  else
    if 0 < state.holdTimer then
      { state with holdTimer := state.holdTimer - dt }
    else
      let state := { state with active := false }
      let releaseRate := 1 / max rule.releaseTime (1/1000)
      let lvl := state.currentLevel + releaseRate * dt
      { state with currentLevel := min lvl 1 }

/-- Rule loop of Ducker Update: step each rule's state and accumulate
the lowest duck level per target bus. -/
def duckLoop (dt : ℚ) (active : String → Bool) :
    List DuckingRule → List (String × DuckingState) → List (String × ℚ) →
    List (String × DuckingState) × List (String × ℚ)
  | [], states, levels => (states, levels)
  | rule :: rest, states, levels =>
      let key := keyOf rule
      let st := stepState rule (lookupD states key) dt (active rule.sidechainBus)
      let states1 := insertStr states key st
      let levels1 :=
        match lookupStr levels rule.targetBus with
        | none => insertStr levels rule.targetBus st.currentLevel
        | some l => insertStr levels rule.targetBus (min l st.currentLevel)
      duckLoop dt active rest states1 levels1

/-- Volume application of Ducker Update on one bus: set the volume only
when it differs from the accumulated level by more than the epsilon. -/
def applyDuck (levels : List (String × ℚ)) (busName : String) (b : Bus) : Bus :=
  match lookupStr levels busName with
  | some level => if 1/1000 < |b.volume - level| then b.setVolume level else b
  | none => b

/-- Ducker Update.  Buses live in a name-keyed unordered map, modelled
as an association list with unique keys; iterating the accumulated
levels and patching the named buses equals patching every bus with its
accumulated level, which is how it is written here. -/
def Ducker.Update (d : Ducker) (dt : ℚ) (buses : List (String × Bus))
    (active : String → Bool) : Ducker × List (String × Bus) :=
  let sl := duckLoop dt active d.rules d.states []
  ({ d with states := sl.1 },
   buses.map fun nb => (nb.1, applyDuck sl.2 nb.1 nb.2))

/-- Ducker GetDuckLevel: minimum tracked level across the rules of a
target bus, seeded with 1. -/
def Ducker.GetDuckLevel (d : Ducker) (targetBus : String) : ℚ :=
  d.rules.foldl (fun minLevel rule =>
    if rule.targetBus = targetBus then
      match lookupStr d.states (keyOf rule) with
      | some st => min minLevel st.currentLevel
      | none => minLevel
    else minLevel) 1

/-- Running minimum over a list with an optional seed. -/
def minListOpt : Option ℚ → List ℚ → Option ℚ
  | acc, [] => acc
  | none, x :: xs => minListOpt (some x) xs
  | some l, x :: xs => minListOpt (some (min l x)) xs

/-- Written from the claim: the minimum of the current levels of all
rules targeting the bus (none when no rule targets it). -/
def specRuleMin (d : Ducker) (targetBus : String) : Option ℚ :=
  minListOpt none ((d.rules.filter fun r => r.targetBus = targetBus).map
    fun r => (lookupD d.states (keyOf r)).currentLevel)

/-! ### Mix zones and their arbitration
(src/src/MixZone.cpp and AudioManager UpdateMixZones, ApplySnapshot,
ResetBusVolumes).  The zone enter and exit callbacks are externally
supplied side effects and are not modelled; the claims here concern the
winner selection and the bus state. -/

structure MixZone where
  name : String
  snapshotName : String
  position : Vec3
  innerRadius : ℚ
  outerRadius : ℚ
  priority : ℕ := 128
  fadeInTime : ℚ := 1/2
  fadeOutTime : ℚ := 1/2
  blendFactor : ℚ := 0
  justEntered : Bool := false
  justExited : Bool := false
deriving DecidableEq

/-- MixZone Distance. -/
def mixDistance (m : CMath) (a b : Vec3) : ℚ :=
  let dx := a.x - b.x
  let dy := a.y - b.y
  let dz := a.z - b.z
  m.sqrt (dx * dx + dy * dy + dz * dz)

/-- MixZone ComputeBlend. -/
def MixZone.computeBlend (z : MixZone) (dist : ℚ) : ℚ :=
  if dist < z.innerRadius then 1
  else if z.outerRadius < dist then 0
  else 1 - (dist - z.innerRadius) / (z.outerRadius - z.innerRadius)

/-- MixZone Update: recompute the blend factor and the edge flags.
IsActive is the test for a positive blend factor. -/
def MixZone.update (m : CMath) (listenerPos : Vec3) (z : MixZone) : MixZone :=
  let dist := mixDistance m listenerPos z.position
  let newBlend := z.computeBlend dist
  let wasActive := 0 < z.blendFactor
  let isNowActive := 0 < newBlend
  if ¬wasActive ∧ isNowActive then
    { z with blendFactor := newBlend, justEntered := true, justExited := false }
  else if wasActive ∧ ¬isNowActive then
    { z with blendFactor := newBlend, justEntered := false, justExited := true }
  else
    { z with blendFactor := newBlend, justEntered := false, justExited := false }

/-- Snapshot bus states: bus name to target volume (Snapshot.h holds
reverb states too, which UpdateMixZones never touches). -/
abbrev Snapshot := List (String × ℚ)

/-- The slice of the AudioManager state UpdateMixZones works on. -/
structure MixState where
  mixZones : List MixZone := []
  activeMixZone : String := ""
  buses : List (String × Bus) := []
  snapshots : List (String × Snapshot) := []

/-- Winner scan of UpdateMixZones: keep the first active zone, replace
it on strictly higher priority, or on equal priority and strictly
higher blend factor. -/
def pickBest : List MixZone → Option MixZone → Option MixZone
  | [], best => best
  | z :: rest, best =>
      if 0 < z.blendFactor then
        match best with
        | none => pickBest rest (some z)
        | some b =>
            if b.priority < z.priority ∨
                (z.priority = b.priority ∧ b.blendFactor < z.blendFactor) then
              pickBest rest (some z)
            else pickBest rest (some b)
      else pickBest rest best

/-- Iteration of ApplySnapshot over the snapshot's bus states: set the
target volume of every named bus that exists. -/
def foldApply : List (String × ℚ) → List (String × Bus) → ℚ → List (String × Bus)
  | [], buses, _ => buses
  | (bn, v) :: rest, buses, fade =>
      foldApply rest
        (match lookupStr buses bn with
         | some b => insertStr buses bn (b.setTargetVolume v fade)
         | none => buses) fade

/-- AudioManager ApplySnapshot (bus part); an unknown snapshot name is
an error that leaves the state unchanged. -/
def applySnapshot (s : MixState) (name : String) (fade : ℚ) : MixState :=
  match lookupStr s.snapshots name with
  | some snap => { s with buses := foldApply snap s.buses fade }
  | none => s

/-- AudioManager ResetBusVolumes: every bus fades back to unity. -/
def resetBusVolumes (s : MixState) (fade : ℚ) : MixState :=
  { s with buses := s.buses.map fun nb => (nb.1, nb.2.setTargetVolume 1 fade) }

/-- AudioManager UpdateMixZones: update every zone, pick the winner,
handle the transition (resetting buses over half a second when the
winner disappears), then apply the winner's snapshot with fade equal to
its blend times its fade-in time. -/
def updateMixZones (m : CMath) (s : MixState) (listenerPos : Vec3) : MixState :=
  let zones := s.mixZones.map (MixZone.update m listenerPos)
  let best := pickBest zones none
  let newActive := match best with | some z => z.name | none => ""
  let s1 : MixState := { s with mixZones := zones }
  let s2 :=
    if newActive ≠ s1.activeMixZone then
      let s3 := if s1.activeMixZone ≠ "" ∧ newActive = "" then resetBusVolumes s1 (1/2) else s1
      { s3 with activeMixZone := newActive }
    else s1
  match best with
  | some z => applySnapshot s2 z.snapshotName (z.blendFactor * z.fadeInTime)
  | none => s2

/-- Priority-then-blend dominance used by the winner selection. -/
def zoneLE (z w : MixZone) : Prop :=
  z.priority < w.priority ∨ (z.priority = w.priority ∧ z.blendFactor ≤ w.blendFactor)

/-! ### Occlusion processor (src/src/OcclusionProcessor.cpp) -/

structure OcclusionMaterial where
  name : String := ""
  obstruction : ℚ := 1/2
  occlusionBias : ℚ := 0
deriving DecidableEq

structure OcclusionHit where
  materialName : String
  thickness : ℚ
deriving DecidableEq

/-- The built-in material presets, in the order RegisterDefaultMaterials
inserts them (fresh keys keep insertion order in the map model). -/
def defaultMaterials : List (String × OcclusionMaterial) :=
  [("Glass", ⟨"Glass", 2/10, -2/10⟩),
   ("Fabric", ⟨"Fabric", 1/10, -3/10⟩),
   ("Foliage", ⟨"Foliage", 15/100, -2/10⟩),
   ("Wood", ⟨"Wood", 3/10, 0⟩),
   ("Plaster", ⟨"Plaster", 4/10, 1/10⟩),
   ("Metal", ⟨"Metal", 5/10, 1/10⟩),
   ("Brick", ⟨"Brick", 6/10, 2/10⟩),
   ("Concrete", ⟨"Concrete", 8/10, 3/10⟩),
   ("Stone", ⟨"Stone", 85/100, 35/100⟩),
   ("Terrain", ⟨"Terrain", 1, 5/10⟩),
   ("Water", ⟨"Water", 9/10, 4/10⟩),
   ("Default", ⟨"Default", 5/10, 0⟩)]

/-- Processor state and configuration with the header defaults; the
query callback is the game-supplied raycast oracle. -/
structure OcclusionProcessor where
  queryCallback : Option (Vec3 → Vec3 → List OcclusionHit) := none
  materials : List (String × OcclusionMaterial) := defaultMaterials
  enabled : Bool := true
  occlusionThreshold : ℚ := 7/10
  smoothingTime : ℚ := 1/10
  updateRate : ℚ := 10
  minLowPassFreq : ℚ := 400
  maxLowPassFreq : ℚ := 22000
  maxVolumeReduction : ℚ := 1/2
  timeSinceLastUpdate : ℚ := 0

/-- GetMaterial: registered material or the Default fallback. -/
def OcclusionProcessor.getMaterial (p : OcclusionProcessor)
    (name : String) : OcclusionMaterial :=
  (lookupStr p.materials name).getD ⟨"Default", 5/10, 0⟩

/-- SmoothValues: one-pole smoothing of the low-pass frequency and the
smoothed occlusion. -/
def smoothValues (m : CMath) (p : OcclusionProcessor) (v : Voice) (dt : ℚ) : Voice :=
  let alpha := 1 - m.exp (-dt / p.smoothingTime)
  { v with
    currentLowPassFreq :=
      v.currentLowPassFreq + alpha * (v.targetLowPassFreq - v.currentLowPassFreq)
    occlusionSmoothed :=
      v.occlusionSmoothed + alpha * (v.occlusion - v.occlusionSmoothed) }

/-- Hit loop of Update: accumulate obstruction (weighted by the
thickness factor) and the occlusion bias. -/
def accumulateHits (p : OcclusionProcessor) (hits : List OcclusionHit) : ℚ × ℚ :=
  hits.foldl (fun acc hit =>
    let mat := p.getMaterial hit.materialName
    let thicknessFactor := min hit.thickness 3 / 3
    (acc.1 + mat.obstruction * (1/2 + 1/2 * thicknessFactor),
     acc.2 + mat.occlusionBias)) (0, 0)

/-- Branch of Update taken when the processor is disabled or has no
callback: clear the targets and keep smoothing. -/
def occDisabled (m : CMath) (p : OcclusionProcessor) (v : Voice) (dt : ℚ) :
    OcclusionProcessor × Voice :=
  let v := { v with obstruction := 0, occlusion := 0,
                    targetLowPassFreq := p.maxLowPassFreq, occlusionVolume := 1 }
  (p, smoothValues m p v dt)

/-- OcclusionProcessor Update.  The time accumulator is a field of the
processor, shared across all voices; it advances on every enabled call
and resets when the rate window has elapsed, which is when the raycast
query runs and the DSP targets are recomputed. -/
def occUpdate (m : CMath) (p : OcclusionProcessor) (v : Voice)
    (listenerPos : Vec3) (dt : ℚ) : OcclusionProcessor × Voice :=
  if p.enabled = false then occDisabled m p v dt
  else
    match p.queryCallback with
    | none => occDisabled m p v dt
    | some query =>
      let acc := p.timeSinceLastUpdate + dt
      if acc < 1 / p.updateRate then
        ({ p with timeSinceLastUpdate := acc }, smoothValues m p v dt)
      else
        let p1 := { p with timeSinceLastUpdate := 0 }
        let hits := query v.position listenerPos
        let totals := accumulateHits p hits
        let v1 := { v with obstruction := cppClamp totals.1 0 1 }
        let occlusionValue := v1.obstruction + totals.2
        let v2 :=
          if p.occlusionThreshold ≤ occlusionValue then
            { v1 with occlusion :=
                cppClamp ((occlusionValue - p.occlusionThreshold)
                  / (1 - p.occlusionThreshold)) 0 1 }
          else { v1 with occlusion := 0 }
        let combined : ℚ := max v2.obstruction v2.occlusion
        let freqT : ℚ := 1 - combined
        let v3 := { v2 with
          targetLowPassFreq :=
            p.minLowPassFreq * m.pow (p.maxLowPassFreq / p.minLowPassFreq) freqT
          occlusionVolume := 1 - combined * p.maxVolumeReduction }
        (p1, smoothValues m p1 v3 dt)

/-! Spec-side formulas for C5, written from the claim's words. -/

/-- Sum over hits of obstruction times the thickness weight, clamped so
any number of walls never pushes it above one. -/
def specObstruction (p : OcclusionProcessor) (hits : List OcclusionHit) : ℚ :=
  cppClamp ((hits.map fun h =>
    (p.getMaterial h.materialName).obstruction
      * (1/2 + 1/2 * (min h.thickness 3 / 3))).sum) 0 1

/-- Sum of the occlusion biases over the hits. -/
def specBias (p : OcclusionProcessor) (hits : List OcclusionHit) : ℚ :=
  (hits.map fun h => (p.getMaterial h.materialName).occlusionBias).sum

/-- Zero below the threshold, else the linear ramp from zero at the
threshold to one at saturation. -/
def specOcclusion (thr obst bias : ℚ) : ℚ :=
  if obst + bias < thr then 0
  else cppClamp ((obst + bias - thr) / (1 - thr)) 0 1

/-- Logarithmic low-pass mapping of the claim. -/
def specTargetLp (m : CMath) (p : OcclusionProcessor) (c : ℚ) : ℚ :=
  p.minLowPassFreq * m.pow (p.maxLowPassFreq / p.minLowPassFreq) (1 - c)

/-- Volume multiplier of the claim. -/
def specOccVolume (p : OcclusionProcessor) (c : ℚ) : ℚ :=
  1 - c * p.maxVolumeReduction

/-! Run model for C9: a sequence of per-voice Update calls against the
one shared processor. -/

structure OccCall where
  voice : Voice
  listenerPos : Vec3
  dt : ℚ

/-- Whether an enabled call with a callback issues the raycast query:
exactly when the accumulated time reaches the rate window. -/
def occQueryFlag (p : OcclusionProcessor) (dt : ℚ) : Bool :=
  p.enabled && p.queryCallback.isSome
    && !(decide (p.timeSinceLastUpdate + dt < 1 / p.updateRate))

/-- Threaded run of Update calls, recording for each call whether it
queried and the voice it produced. -/
def occRun (m : CMath) : OcclusionProcessor → List OccCall →
    OcclusionProcessor × List (Bool × Voice)
  | p, [] => (p, [])
  | p, c :: rest =>
      let r := occUpdate m p c.voice c.listenerPos c.dt
      let t := occRun m r.1 rest
      (t.1, (occQueryFlag p c.dt, r.2) :: t.2)

/-- Written from the claim: the query schedule determined by the delta
times alone, independent of which voice each call is for. -/
def specWindowFlags (w : ℚ) : ℚ → List ℚ → List Bool
  | _, [] => []
  | acc, dt :: rest =>
      if acc + dt < w then false :: specWindowFlags w (acc + dt) rest
      else true :: specWindowFlags w 0 rest

/-! ### Concrete inputs used by witnesses and counterexamples -/

/-- Trivial interpretation of the math library, usable in witnesses
because every theorem quantifies over all interpretations. -/
def cmId : CMath := ⟨fun q => q, fun q => q, fun q => q, fun _ q => q⟩

def c1ops : List PoolOp :=
  [.alloc "explosion" 128 ⟨0, 0, 0⟩ {}, .makeReal 0, .update 1 ⟨0, 0, 0⟩]

def c2voiceA : Voice := { state := .real, priority := 50, audibility := 0 }
def c2voiceB : Voice := { state := .virt, priority := 60, audibility := 1 }
def c2pool : VoicePool := { voices := [c2voiceA, c2voiceB], maxRealVoices := 1 }

def c3voiceA : Voice := { state := .real, priority := 100, startTime := 1, audibility := 1 }
def c3voiceB : Voice := { state := .real, priority := 100, startTime := 5, audibility := 1 }
def c3voiceC : Voice := { state := .virt, priority := 200, audibility := 1 }
def c3pool : VoicePool :=
  { voices := [c3voiceA, c3voiceB, c3voiceC], maxRealVoices := 2, stealBehavior := .oldest }

def c3farA : Voice := { state := .real, priority := 100, audibility := 0 }
def c3farB : Voice := { state := .real, priority := 100, audibility := 3 }
def c3fpool : VoicePool :=
  { voices := [c3farA, c3farB, c3voiceC], maxRealVoices := 2, stealBehavior := .furthest }

/-- An event object carrying every playlist key of the schema. -/
def c6json : Json := .obj
  [("name", .str "music"),
   ("sounds", .arr [.str "a.ogg", .str "b.ogg"]),
   ("playlistMode", .str "sequential"),
   ("loopPlaylist", .bool true),
   ("interval", .num 2),
   ("startDelay", .num 3)]

/-- Descriptor the source actually registers for c6json. -/
def c6ed : EventDescriptor := { name := "music", bus := "Master" }

def c7okJson : Json := .obj [("name", .str "step")]

/-- Object with the name key missing: InvalidFormat. -/
def c7badJson : Json := .obj [("sound", .str "x.wav")]

/-- A top-level value that is a single object rather than an array. -/
def c10json : Json := .obj [("name", .str "single")]

/-- Two distinct ducking rules whose MakeKey strings collide. -/
def c8r1 : DuckingRule :=
  { targetBus := "A:B", sidechainBus := "C",
    duckLevel := 0, attackTime := 1, releaseTime := 1, holdTime := 0 }
def c8r2 : DuckingRule :=
  { targetBus := "A", sidechainBus := "B:C",
    duckLevel := 0, attackTime := 1, releaseTime := 1, holdTime := 0 }
def c8ducker : Ducker := (Ducker.addRule {} c8r1).addRule c8r2
def c8buses : List (String × Bus) := [("A:B", {}), ("A", {})]
def c8active : String → Bool := fun s => s == "C"

/-- A mix zone and state for the C4 witness: the listener stands at the
zone centre, so the updated blend factor is 1. -/
def c4zone : MixZone :=
  { name := "cave", snapshotName := "caveSnap", position := ⟨0, 0, 0⟩,
    innerRadius := 5, outerRadius := 15, priority := 100,
    fadeInTime := 1, fadeOutTime := 1 }
def c4state : MixState :=
  { mixZones := [c4zone], activeMixZone := "",
    buses := [("Music", {})],
    snapshots := [("caveSnap", [("Music", 2)])] }

/-- Raycast oracle and processor for the C5 witness: one concrete wall
of thickness three between source and listener. -/
def c5query : Vec3 → Vec3 → List OcclusionHit := fun _ _ => [⟨"Concrete", 3⟩]
def c5proc : OcclusionProcessor := { queryCallback := some c5query }

/-- Oracle and calls for the C9 witness: two voices updated in the same
rate window. -/
def c9query : Vec3 → Vec3 → List OcclusionHit := fun _ _ => []
def c9proc : OcclusionProcessor := { queryCallback := some c9query }
def c9calls : List OccCall :=
  [⟨{ id := 1 }, ⟨0, 0, 0⟩, 1⟩, ⟨{ id := 2 }, ⟨0, 0, 0⟩, 1/100⟩]

/-- A collision-free rule set for the amended claim's witness. -/
def c8wRule : DuckingRule :=
  { targetBus := "Music", sidechainBus := "Dialogue",
    duckLevel := 0, attackTime := 1, releaseTime := 1, holdTime := 0 }
def c8wDucker : Ducker := Ducker.addRule {} c8wRule
def c8wBuses : List (String × Bus) := [("Music", {})]
def c8wActive : String → Bool := fun s => s == "Dialogue"

/-! ### Counting lemmas for the pool invariant -/

lemma countReal_nil : countReal [] = 0 := rfl

lemma countReal_cons (a : Voice) (l : List Voice) :
    countReal (a :: l) = (if a.state = .real then 1 else 0) + countReal l := by
  by_cases h : a.state = .real <;>
    simp [countReal, List.filter_cons, h, Nat.add_comm]

lemma countReal_append_one (l : List Voice) (v : Voice) :
    countReal (l ++ [v]) = countReal l + (if v.state = .real then 1 else 0) := by
  induction l with
  | nil => simp [countReal_cons, countReal_nil]
  | cons a l ih => simp [countReal_cons, ih]; omega

lemma getElem?_lt_length {α : Type} {l : List α} {i : ℕ} {v : α}
    (h : l[i]? = some v) : i < l.length := by
  by_contra hh
  push_neg at hh
  rw [List.getElem?_eq_none hh] at h
  exact Option.noConfusion h

lemma countReal_set_balance (l : List Voice) (i : ℕ) (v w : Voice)
    (h : l[i]? = some v) :
    countReal (l.set i w) + (if v.state = .real then 1 else 0)
      = countReal l + (if w.state = .real then 1 else 0) := by
  induction l generalizing i with
  | nil => simp at h
  | cons a l ih =>
    cases i with
    | zero =>
      simp only [List.getElem?_cons_zero, Option.some.injEq] at h
      subst h
      simp [countReal_cons]
      omega
    | succ n =>
      simp only [List.getElem?_cons_succ] at h
      simp only [List.set_cons_succ, countReal_cons]
      have := ih n h
      omega

lemma countReal_eq_zero_not_real {l : List Voice} (h : countReal l = 0) :
    ∀ v ∈ l, v.state ≠ .real := by
  induction l with
  | nil => simp
  | cons a l ih =>
    rw [countReal_cons] at h
    intro v hv
    rcases List.mem_cons.mp hv with rfl | hv
    · intro hs
      rw [if_pos hs] at h
      omega
    · exact ih (by omega) v hv

lemma countReal_map_congr {f : Voice → Voice}
    (hf : ∀ v, (f v).state = v.state) (l : List Voice) :
    countReal (l.map f) = countReal l := by
  induction l with
  | nil => rfl
  | cons a l ih => simp [countReal_cons, ih, hf]

lemma withIdx_mem {l : List Voice} {n j : ℕ} {w : Voice}
    (h : (j, w) ∈ withIdx l n) : n ≤ j ∧ l[j - n]? = some w := by
  induction l generalizing n with
  | nil => simp [withIdx] at h
  | cons a l ih =>
    simp only [withIdx, List.mem_cons] at h
    rcases h with h | h
    · rw [Prod.mk.injEq] at h
      obtain ⟨rfl, rfl⟩ := h
      simp
    · obtain ⟨hle, hget⟩ := ih h
      refine ⟨by omega, ?_⟩
      have : j - n = (j - (n + 1)) + 1 := by omega
      rw [this]
      simpa using hget

lemma withIdx_zero_get {l : List Voice} {j : ℕ} {w : Voice}
    (h : (j, w) ∈ withIdx l 0) : l[j]? = some w := by
  have := withIdx_mem h
  simpa using this.2

/-! ### FindVoiceToSteal facts -/

lemma findStealLoop_cand (b : StealBehavior) (np : ℕ) (na : ℚ)
    (xs : List (ℕ × Voice)) :
    ∀ (best : Option (ℕ × Voice)) (bs : Option ℚ) (j : ℕ),
      (∀ i w, best = some (i, w) → w.state = .real ∧ w.priority ≤ np) →
      findStealLoop b np na xs best bs = some j →
      ∃ w, (best = some (j, w) ∨ (j, w) ∈ xs) ∧ w.state = .real ∧ w.priority ≤ np := by
  induction xs with
  | nil =>
    intro best bs j hb h
    simp only [findStealLoop] at h
    cases best with
    | none => simp at h
    | some iw =>
      obtain ⟨i, w⟩ := iw
      simp at h
      subst h
      exact ⟨w, Or.inl rfl, hb _ w rfl⟩
  | cons iv rest ih =>
    intro best bs j hb h
    obtain ⟨i, v⟩ := iv
    simp only [findStealLoop] at h
    split at h
    · obtain ⟨w, hw, hc⟩ := ih best bs j hb h
      exact ⟨w, by rcases hw with hw | hw; exact Or.inl hw; exact Or.inr (List.mem_cons_of_mem _ hw), hc⟩
    · split at h
      · obtain ⟨w, hw, hc⟩ := ih best bs j hb h
        exact ⟨w, by rcases hw with hw | hw; exact Or.inl hw; exact Or.inr (List.mem_cons_of_mem _ hw), hc⟩
      · split at h
        · obtain ⟨w, hw, hc⟩ := ih best bs j hb h
          exact ⟨w, by rcases hw with hw | hw; exact Or.inl hw; exact Or.inr (List.mem_cons_of_mem _ hw), hc⟩
        · split at h
          · exact absurd h (by simp)
          · next h1 h2 h3 h4 =>
            have hvreal : v.state = .real := by
              by_contra hc
              exact h1 hc
            have hvpr : v.priority ≤ np := by omega
            split at h
            · obtain ⟨w, hw, hc⟩ := ih (some (i, v)) _ j
                (by intro i0 w0 he; cases he; exact ⟨hvreal, hvpr⟩) h
              rcases hw with hw | hw
              · obtain ⟨rfl, rfl⟩ : i = j ∧ v = w := by
                  have h1 := congrArg (Option.map Prod.fst) hw
                  have h2 := congrArg (Option.map Prod.snd) hw
                  simp at h1 h2
                  exact ⟨h1, h2⟩
                exact ⟨v, Or.inr (List.mem_cons_self _ _), hvreal, hvpr⟩
              · exact ⟨w, Or.inr (List.mem_cons_of_mem _ hw), hc⟩
            · obtain ⟨w, hw, hc⟩ := ih best bs j hb h
              exact ⟨w, by rcases hw with hw | hw; exact Or.inl hw; exact Or.inr (List.mem_cons_of_mem _ hw), hc⟩

lemma findStealLoop_none_of_no_real (b : StealBehavior) (np : ℕ) (na : ℚ)
    (xs : List (ℕ × Voice)) (bs : Option ℚ)
    (hxs : ∀ iw ∈ xs, iw.2.state ≠ .real) :
    findStealLoop b np na xs none bs = none := by
  induction xs generalizing bs with
  | nil => rfl
  | cons iv rest ih =>
    obtain ⟨i, v⟩ := iv
    have hv : v.state ≠ .real := hxs (i, v) (List.mem_cons_self _ _)
    simp only [findStealLoop, if_pos hv]
    exact ih bs fun iw hiw => hxs iw (List.mem_cons_of_mem _ hiw)

lemma FindVoiceToSteal_cand {p : VoicePool} {np : ℕ} {na : ℚ} {j : ℕ}
    (h : p.FindVoiceToSteal np na = some j) :
    ∃ w, p.voices[j]? = some w ∧ w.state = .real ∧ w.priority ≤ np := by
  obtain ⟨w, hw, hc⟩ :=
    findStealLoop_cand p.stealBehavior np na (withIdx p.voices 0) none none j
      (by intro i w he; exact absurd he (by simp)) h
  rcases hw with hw | hw
  · exact absurd hw (by simp)
  · exact ⟨w, withIdx_zero_get hw, hc⟩

lemma withIdx_mem_voice {l : List Voice} {n : ℕ} {iw : ℕ × Voice}
    (h : iw ∈ withIdx l n) : iw.2 ∈ l := by
  obtain ⟨j, w⟩ := iw
  exact List.getElem?_mem (withIdx_mem h).2

lemma getElem?_modifyVoice_ne {l : List Voice} {i j : ℕ} {f : Voice → Voice}
    (h : j ≠ i) : (modifyVoice l i f)[j]? = l[j]? := by
  unfold modifyVoice
  cases hv : l[i]?
  · rfl
  · exact List.getElem?_set_ne (Ne.symm h)

lemma getElem?_modifyVoice_self {l : List Voice} {i : ℕ} {f : Voice → Voice} {v : Voice}
    (h : l[i]? = some v) : (modifyVoice l i f)[i]? = some (f v) := by
  unfold modifyVoice
  rw [h]
  exact List.getElem?_set_self (getElem?_lt_length h)

lemma findFreeIdx_spec {l : List Voice} {i : ℕ} (h : findFreeIdx l = some i) :
    ∃ v, l[i]? = some v ∧ v.state = .stopped := by
  induction l generalizing i with
  | nil => simp [findFreeIdx] at h
  | cons a l ih =>
    by_cases hs : a.state = .stopped
    · rw [findFreeIdx, if_pos hs] at h
      cases h
      exact ⟨a, by simp, hs⟩
    · rw [findFreeIdx, if_neg hs] at h
      cases hk : findFreeIdx l with
      | none => rw [hk] at h; simp at h
      | some k =>
        rw [hk] at h
        simp at h
        subst h
        obtain ⟨v, hv, hvs⟩ := ih hk
        exact ⟨v, by simpa using hv, hvs⟩

/-! ### Invariant preservation of the pool operations -/

lemma promoteLoop_max (is : List ℕ) : ∀ p : VoicePool,
    (promoteLoop p is).maxRealVoices = p.maxRealVoices := by
  induction is with
  | nil => intro p; rfl
  | cons i rest ih =>
    intro p
    rw [promoteLoop]
    split
    · rfl
    · split
      · split
        · exact ih _
        · exact ih p
      · exact ih p

lemma PromoteVirtualVoices_max (p : VoicePool) :
    p.PromoteVirtualVoices.maxRealVoices = p.maxRealVoices :=
  promoteLoop_max _ p

lemma MakeReal_max (p : VoicePool) (i : ℕ) :
    ((p.MakeReal i).1).maxRealVoices = p.maxRealVoices := by
  rw [VoicePool.MakeReal]
  cases hv : p.voices[i]?
  · rfl
  · simp only
    split
    · rfl
    · split
      · rfl
      · split <;> rfl

lemma AllocateVoice_max (p : VoicePool) (e : String) (pr : ℕ) (pos : Vec3)
    (ds : DistanceSettings) :
    ((p.AllocateVoice e pr pos ds).1).maxRealVoices = p.maxRealVoices := by
  rw [VoicePool.AllocateVoice]
  cases hv : p.findFreeVoice <;> rfl

lemma applyOp_max (m : CMath) (p : VoicePool) (op : PoolOp) :
    (applyOp m p op).maxRealVoices = p.maxRealVoices := by
  cases op with
  | alloc e pr pos ds => exact AllocateVoice_max ..
  | makeReal i => exact MakeReal_max ..
  | makeVirtual i =>
      show (p.MakeVirtual i).maxRealVoices = p.maxRealVoices
      unfold VoicePool.MakeVirtual
      split
      · split <;> rfl
      · rfl
  | stop i =>
      show (p.StopVoice i).maxRealVoices = p.maxRealVoices
      unfold VoicePool.StopVoice
      split <;> rfl
  | update dt lpos => exact PromoteVirtualVoices_max _

lemma countReal_AllocateVoice (p : VoicePool) (e : String) (pr : ℕ) (pos : Vec3)
    (ds : DistanceSettings) :
    countReal ((p.AllocateVoice e pr pos ds).1).voices = countReal p.voices := by
  rw [VoicePool.AllocateVoice]
  cases hf : p.findFreeVoice with
  | none => simp [countReal_append_one, allocAssign]
  | some i =>
      obtain ⟨v, hv, hstop⟩ := findFreeIdx_spec hf
      simp only
      rw [show modifyVoice p.voices i (allocAssign p e pr pos ds)
            = p.voices.set i (allocAssign p e pr pos ds v) by
          unfold modifyVoice; rw [hv]]
      have hb := countReal_set_balance p.voices i v (allocAssign p e pr pos ds v) hv
      rw [hstop] at hb
      simp [allocAssign] at hb
      exact hb

lemma countReal_MakeReal_le (p : VoicePool) (i : ℕ)
    (h : countReal p.voices ≤ p.maxRealVoices) :
    countReal ((p.MakeReal i).1).voices ≤ p.maxRealVoices := by
  rw [VoicePool.MakeReal]
  cases hv : p.voices[i]? with
  | none => exact h
  | some v =>
    simp only
    split
    · exact h
    · next hreal =>
      split
      · next hlt =>
        have hcnt : p.GetRealVoiceCount = countReal p.voices := rfl
        rw [show modifyVoice p.voices i (fun w => { w with state := .real })
              = p.voices.set i { v with state := .real } by
            unfold modifyVoice; rw [hv]]
        have hb := countReal_set_balance p.voices i v { v with state := .real } hv
        rw [if_neg hreal] at hb
        simp at hb
        rw [hcnt] at hlt
        show countReal (p.voices.set i { v with state := .real }) ≤ p.maxRealVoices
        omega
      · next hge =>
        cases hs : p.FindVoiceToSteal v.priority v.audibility with
        | none => simp only [hs]; exact h
        | some j =>
          simp only [hs]
          obtain ⟨w, hw, hwreal, _⟩ := FindVoiceToSteal_cand hs
          have hij : i ≠ j := by
            rintro rfl
            rw [hv] at hw
            cases hw
            exact hreal hwreal
          have h1 : modifyVoice p.voices j (fun w => { w with state := .virt, handle := 0 })
              = p.voices.set j { w with state := .virt, handle := 0 } := by
            unfold modifyVoice; rw [hw]
          have hb1 := countReal_set_balance p.voices j w
            { w with state := .virt, handle := 0 } hw
          rw [if_pos hwreal] at hb1
          simp at hb1
          have hvi : (p.voices.set j { w with state := .virt, handle := 0 })[i]? = some v := by
            rw [List.getElem?_set_ne (Ne.symm hij), hv]
          have h2 : modifyVoice (p.voices.set j { w with state := .virt, handle := 0 }) i
                (fun w => { w with state := .real })
              = (p.voices.set j { w with state := .virt, handle := 0 }).set i
                  { v with state := .real } := by
            unfold modifyVoice; rw [hvi]
          have hb2 := countReal_set_balance _ i v { v with state := .real } hvi
          rw [if_neg hreal] at hb2
          simp at hb2
          rw [h1, h2]
          show countReal ((p.voices.set j { w with state := .virt, handle := 0 }).set i
            { v with state := .real }) ≤ p.maxRealVoices
          omega

lemma countReal_MakeVirtual_le (p : VoicePool) (i : ℕ) :
    countReal (p.MakeVirtual i).voices ≤ countReal p.voices := by
  rw [VoicePool.MakeVirtual]
  cases hv : p.voices[i]? with
  | none => exact le_refl _
  | some v =>
    simp only
    split
    · next hreal =>
      rw [show modifyVoice p.voices i (fun w => { w with state := .virt, handle := 0 })
            = p.voices.set i { v with state := .virt, handle := 0 } by
          unfold modifyVoice; rw [hv]]
      have hb := countReal_set_balance p.voices i v { v with state := .virt, handle := 0 } hv
      rw [if_pos hreal] at hb
      simp at hb
      show countReal (p.voices.set i { v with state := .virt, handle := 0 }) ≤ countReal p.voices
      omega
    · exact le_refl _

lemma countReal_StopVoice_le (p : VoicePool) (i : ℕ) :
    countReal (p.StopVoice i).voices ≤ countReal p.voices := by
  rw [VoicePool.StopVoice]
  cases hv : p.voices[i]? with
  | none => exact le_refl _
  | some v =>
    simp only
    rw [show modifyVoice p.voices i (fun w => { w with state := .stopped, handle := 0 })
          = p.voices.set i { v with state := .stopped, handle := 0 } by
        unfold modifyVoice; rw [hv]]
    have hb := countReal_set_balance p.voices i v { v with state := .stopped, handle := 0 } hv
    simp at hb
    show countReal (p.voices.set i { v with state := .stopped, handle := 0 }) ≤ countReal p.voices
    omega

lemma countReal_promoteLoop_le (is : List ℕ) : ∀ p : VoicePool,
    countReal p.voices ≤ p.maxRealVoices →
    countReal (promoteLoop p is).voices ≤ p.maxRealVoices := by
  induction is with
  | nil => intro p h; exact h
  | cons i rest ih =>
    intro p h
    rw [promoteLoop]
    split
    · exact h
    · next hlt =>
      have hcnt : p.GetRealVoiceCount = countReal p.voices := rfl
      rw [hcnt] at hlt
      cases hv : p.voices[i]? with
      | none => exact ih p h
      | some v =>
        simp only
        split
        · have hb := countReal_set_balance p.voices i v { v with state := .real } hv
          simp at hb
          have hle : countReal (p.voices.set i { v with state := .real }) ≤ p.maxRealVoices := by
            by_cases hr : v.state = .real
            · rw [if_pos hr] at hb; omega
            · rw [if_neg hr] at hb; omega
          have := ih { p with voices := modifyVoice p.voices i fun w => { w with state := .real } }
            (by
              rw [show modifyVoice p.voices i (fun w => { w with state := .real })
                    = p.voices.set i { v with state := .real } by
                  unfold modifyVoice; rw [hv]]
              exact hle)
          simpa using this
        · exact ih p h

lemma countReal_PromoteVirtualVoices_le (p : VoicePool)
    (h : countReal p.voices ≤ p.maxRealVoices) :
    countReal p.PromoteVirtualVoices.voices ≤ p.maxRealVoices :=
  countReal_promoteLoop_le _ p h

lemma countReal_Update_le (m : CMath) (p : VoicePool) (dt : ℚ) (lpos : Vec3)
    (h : countReal p.voices ≤ p.maxRealVoices) :
    countReal (p.Update m dt lpos).voices ≤ p.maxRealVoices := by
  rw [VoicePool.Update]
  apply countReal_promoteLoop_le
  simp only
  rw [countReal_map_congr]
  · exact h
  · intro v
    by_cases hs : v.state = .stopped <;> simp [hs, Voice.updateAudibility]

lemma applyOp_invariant (m : CMath) (p : VoicePool) (op : PoolOp)
    (h : countReal p.voices ≤ p.maxRealVoices) :
    countReal (applyOp m p op).voices ≤ (applyOp m p op).maxRealVoices := by
  rw [applyOp_max]
  cases op with
  | alloc e pr pos ds => rw [applyOp, countReal_AllocateVoice]; exact h
  | makeReal i => exact countReal_MakeReal_le p i h
  | makeVirtual i => exact le_trans (countReal_MakeVirtual_le p i) h
  | stop i => exact le_trans (countReal_StopVoice_le p i) h
  | update dt lpos =>
      have := countReal_Update_le m p dt lpos h
      have hm := PromoteVirtualVoices_max
      exact this

lemma runOps_invariant (m : CMath) (ops : List PoolOp) : ∀ p : VoicePool,
    countReal p.voices ≤ p.maxRealVoices →
    countReal (runOps m p ops).voices ≤ (runOps m p ops).maxRealVoices := by
  induction ops with
  | nil => intro p h; exact h
  | cons op rest ih =>
    intro p h
    have hstep := applyOp_invariant m p op h
    rw [applyOp_max] at hstep
    have := ih (applyOp m p op) (by rw [applyOp_max]; exact hstep)
    simpa [runOps, List.foldl_cons] using this

lemma runOps_max (m : CMath) (ops : List PoolOp) : ∀ p : VoicePool,
    (runOps m p ops).maxRealVoices = p.maxRealVoices := by
  induction ops with
  | nil => intro p; rfl
  | cons op rest ih =>
    intro p
    have := ih (applyOp m p op)
    simp only [runOps, List.foldl_cons] at this ⊢
    rw [this, applyOp_max]

lemma MakeReal_false_of_no_real (p : VoicePool) (i : ℕ)
    (h0 : countReal p.voices = 0) (hmax : p.maxRealVoices = 0) :
    (p.MakeReal i).2 = false := by
  rw [VoicePool.MakeReal]
  cases hv : p.voices[i]? with
  | none => rfl
  | some v =>
    simp only
    have hnr : v.state ≠ .real :=
      countReal_eq_zero_not_real h0 v (List.getElem?_mem hv)
    rw [if_neg hnr]
    have hnl : ¬ p.GetRealVoiceCount < p.maxRealVoices := by
      have : p.GetRealVoiceCount = countReal p.voices := rfl
      omega
    rw [if_neg hnl]
    have hsteal : p.FindVoiceToSteal v.priority v.audibility = none := by
      rw [VoicePool.FindVoiceToSteal]
      apply findStealLoop_none_of_no_real
      intro iw hiw
      exact countReal_eq_zero_not_real h0 iw.2 (withIdx_mem_voice hiw)
    rw [hsteal]

lemma PromoteVirtualVoices_id_of_max_zero (p : VoicePool)
    (hmax : p.maxRealVoices = 0) : p.PromoteVirtualVoices = p := by
  rw [VoicePool.PromoteVirtualVoices]
  generalize ((sortByAudDesc _).map _) = is
  cases is with
  | nil => rfl
  | cons i rest => rw [promoteLoop, if_pos (by omega)]

/-- C1: over every sequence of pool operations from a fresh pool, the
number of Real voices never exceeds the budget, and with a zero budget
MakeReal always returns false, promotion is the identity, and the Real
count is always zero. -/
theorem c1_real_voice_budget (m : CMath) (maxReal : ℕ) (ops : List PoolOp) :
    (runOps m (VoicePool.init maxReal) ops).GetRealVoiceCount ≤ maxReal ∧
    (maxReal = 0 →
      (runOps m (VoicePool.init maxReal) ops).GetRealVoiceCount = 0 ∧
      (∀ i, ((runOps m (VoicePool.init maxReal) ops).MakeReal i).2 = false) ∧
      (runOps m (VoicePool.init maxReal) ops).PromoteVirtualVoices
        = runOps m (VoicePool.init maxReal) ops) := by
  have hmax := runOps_max m ops (VoicePool.init maxReal)
  have hinit : (VoicePool.init maxReal).maxRealVoices = maxReal := rfl
  have hinv := runOps_invariant m ops (VoicePool.init maxReal)
    (by simp [VoicePool.init, countReal_nil])
  rw [hmax, hinit] at hinv
  refine ⟨hinv, fun h0 => ?_⟩
  subst h0
  have hz : countReal (runOps m (VoicePool.init 0) ops).voices = 0 := by omega
  refine ⟨hz, fun i => ?_, ?_⟩
  · exact MakeReal_false_of_no_real _ i hz hmax
  · exact PromoteVirtualVoices_id_of_max_zero _ hmax

/-- Witness for C1 at a concrete operation sequence with a zero budget. -/
theorem c1_real_voice_budget_witness :
    (runOps cmId (VoicePool.init 0) c1ops).GetRealVoiceCount = 0 ∧
    ((runOps cmId (VoicePool.init 0) c1ops).MakeReal 0).2 = false ∧
    (runOps cmId (VoicePool.init 0) c1ops).PromoteVirtualVoices
      = runOps cmId (VoicePool.init 0) c1ops := by
  have h := (c1_real_voice_budget cmId 0 c1ops).2 rfl
  exact ⟨h.1, h.2.1 0, h.2.2⟩

/-- C2: whenever MakeReal demotes a Real voice through the steal path,
the demoted voice's priority is at most the promoted voice's priority. -/
theorem c2_no_lower_priority_steal (p : VoicePool) (i j : ℕ) (v w : Voice)
    (hv : p.voices[i]? = some v) (hw : p.voices[j]? = some w)
    (hwreal : w.state = .real)
    (hdem : ((p.MakeReal i).1.voices[j]?).map Voice.state = some .virt) :
    w.priority ≤ v.priority := by
  rw [VoicePool.MakeReal, hv] at hdem
  simp only at hdem
  by_cases hreal : v.state = .real
  · rw [if_pos hreal, hw] at hdem
    simp [hwreal] at hdem
  · rw [if_neg hreal] at hdem
    by_cases hlt : p.GetRealVoiceCount < p.maxRealVoices
    · rw [if_pos hlt] at hdem
      by_cases hij : j = i
      · subst hij
        rw [getElem?_modifyVoice_self hv] at hdem
        simp at hdem
      · rw [getElem?_modifyVoice_ne hij, hw] at hdem
        simp [hwreal] at hdem
    · rw [if_neg hlt] at hdem
      cases hs : p.FindVoiceToSteal v.priority v.audibility with
      | none =>
        rw [hs] at hdem
        simp only at hdem
        rw [hw] at hdem
        simp [hwreal] at hdem
      | some k =>
        rw [hs] at hdem
        simp only at hdem
        obtain ⟨u, hu, hureal, hupri⟩ := FindVoiceToSteal_cand hs
        by_cases hji : j = i
        · subst hji
          have hik : j ≠ k := by
            rintro rfl
            rw [hv] at hu
            cases hu
            exact hreal hureal
          have hvj : (modifyVoice p.voices k fun w => { w with state := .virt, handle := 0 })[j]?
              = some v := by
            rw [getElem?_modifyVoice_ne hik, hv]
          rw [getElem?_modifyVoice_self hvj] at hdem
          simp at hdem
        · rw [getElem?_modifyVoice_ne hji] at hdem
          by_cases hjk : j = k
          · subst hjk
            rw [hw] at hu
            cases hu
            exact hupri
          · rw [getElem?_modifyVoice_ne hjk, hw] at hdem
            simp [hwreal] at hdem

/-- Witness for C2: a concrete steal where the victim has priority 50
and the promoted voice priority 60. -/
theorem c2_no_lower_priority_steal_witness :
    c2pool.voices[0]?.map Voice.state = some .real ∧
    ((c2pool.MakeReal 1).1.voices[0]?).map Voice.state = some .virt ∧
    c2voiceA.priority ≤ c2voiceB.priority := by
  refine ⟨by decide, by decide, ?_⟩
  exact c2_no_lower_priority_steal c2pool 1 0 c2voiceB c2voiceA rfl rfl rfl (by decide)

/-- C3 (code bug evidence): with steal behavior Oldest the code demotes
the voice with the LARGEST start time (index 1, start time 5) instead of
the oldest voice (index 0, start time 1), because the score is minimised
over negated start times; likewise Furthest picks the MOST audible
candidate.  This contradicts the source's own comments and the spec. -/
theorem c3_steal_score_sign_bug :
    c3pool.FindVoiceToSteal 200 1 = some 1 ∧
    c3pool.voices[0]?.map Voice.startTime = some 1 ∧
    c3pool.voices[1]?.map Voice.startTime = some 5 ∧
    ((c3pool.MakeReal 2).1.voices[1]?).map Voice.state = some .virt ∧
    ((c3pool.MakeReal 2).1.voices[0]?).map Voice.state = some .real ∧
    c3fpool.FindVoiceToSteal 200 1 = some 1 ∧
    c3fpool.voices[0]?.map Voice.audibility = some 0 ∧
    c3fpool.voices[1]?.map Voice.audibility = some 3 := by
  decide

/-! ### Sound bank lemmas -/

lemma jGetStr_err {v : Json} {e : ErrorCode} (h : jGetStr v = .error e) :
    e = .jsonParseError := by
  cases v <;> simp [jGetStr] at h <;> exact h.symm

lemma jGetNum_err {v : Json} {e : ErrorCode} (h : jGetNum v = .error e) :
    e = .jsonParseError := by
  cases v <;> simp [jGetNum] at h <;> exact h.symm

lemma valueStr_err {j : Json} {k d : String} {e : ErrorCode}
    (h : j.valueStr k d = .error e) : e = .jsonParseError := by
  unfold Json.valueStr at h
  split at h
  · simp at h
  · exact jGetStr_err h

lemma valueBool_err {j : Json} {k : String} {d : Bool} {e : ErrorCode}
    (h : j.valueBool k d = .error e) : e = .jsonParseError := by
  unfold Json.valueBool at h
  split at h <;> simp at h
  exact h.symm

lemma valueNum_err {j : Json} {k : String} {d : ℚ} {e : ErrorCode}
    (h : j.valueNum k d = .error e) : e = .jsonParseError := by
  unfold Json.valueNum at h
  split at h <;> simp at h
  exact h.symm

lemma valueIntCast_err {j : Json} {k : String} {d : ℤ} {e : ErrorCode}
    (h : j.valueIntCast k d = .error e) : e = .jsonParseError := by
  unfold Json.valueIntCast at h
  split at h <;> simp at h
  exact h.symm

lemma jRangePair_err {j : Json} {k : String} {e : ErrorCode}
    (h : jRangePair j k = .error e) : e = .jsonParseError := by
  unfold jRangePair at h
  split at h
  · split at h
    · simp at h
      subst h
      exact jGetNum_err ‹_›
    · split at h
      · simp at h
        subst h
        exact jGetNum_err ‹_›
      · simp at h
  · simp at h
  · simp at h

lemma parseParams_err {kvs : List (String × Json)} {e : ErrorCode}
    (h : parseParams kvs = .error e) : e = .jsonParseError := by
  induction kvs with
  | nil => simp [parseParams] at h
  | cons kv rest ih =>
    obtain ⟨k, v⟩ := kv
    unfold parseParams at h
    split at h
    · simp at h
      subst h
      exact jGetStr_err ‹_›
    · split at h
      · simp at h
        subst h
        exact ih ‹_›
      · simp at h

lemma paramsBlock_err {j : Json} {e : ErrorCode}
    (h : paramsBlock j = .error e) : e = .jsonParseError := by
  unfold paramsBlock at h
  split at h
  · exact parseParams_err h
  · simp at h

lemma register_err_subset {j : Json} {e : ErrorCode}
    (h : registerEventFromJsonValue j = .error e) :
    e = .jsonParseError ∨ e = .invalidFormat := by
  unfold registerEventFromJsonValue at h
  repeat' split at h
  all_goals
    first
      | exact Except.noConfusion h
      | (cases h; exact Or.inr rfl)
      | (cases h; exact Or.inl (valueStr_err ‹_›))
      | (cases h; exact Or.inl (jRangePair_err ‹_›))
      | (cases h; exact Or.inl (valueBool_err ‹_›))
      | (cases h; exact Or.inl (valueIntCast_err ‹_›))
      | (cases h; exact Or.inl (valueNum_err ‹_›))
      | (cases h; exact Or.inl (paramsBlock_err ‹_›))

lemma lookup_insertStr_self {α : Type} (l : List (String × α)) (k : String) (v : α) :
    lookupStr (insertStr l k v) k = some v := by
  induction l with
  | nil => simp [insertStr, lookupStr]
  | cons kv rest ih =>
    obtain ⟨k0, v0⟩ := kv
    by_cases h : k0 = k
    · simp [insertStr, h, lookupStr]
    · simp [insertStr, h, lookupStr, ih]

lemma lookup_insertStr_isSome {α : Type} (l : List (String × α)) (k n : String) (v : α)
    (h : (lookupStr l n).isSome = true) :
    (lookupStr (insertStr l k v) n).isSome = true := by
  induction l with
  | nil => simp [lookupStr] at h
  | cons kv rest ih =>
    obtain ⟨k0, v0⟩ := kv
    by_cases hk : k0 = k
    · subst hk
      by_cases hn : k0 = n
      · simp [insertStr, lookupStr, hn]
      · simp [insertStr, lookupStr, hn] at h ⊢
        exact h
    · by_cases hn : k0 = n
      · subst hn
        simp [insertStr, hk, lookupStr]
      · simp [insertStr, hk, lookupStr, hn] at h ⊢
        exact ih h

lemma regList_preserves_isSome (xs : List Json) : ∀ (bank : SoundBank) (n : String),
    (lookupStr bank n).isSome = true →
    (lookupStr (regList bank xs) n).isSome = true := by
  induction xs with
  | nil => intro bank n h; exact h
  | cons x rest ih =>
    intro bank n h
    rw [regList]
    cases hx : registerEventFromJsonValue x with
    | ok ed =>
        simp only [hx]
        exact ih _ n (lookup_insertStr_isSome bank ed.name n ed h)
    | error e =>
        simp only [hx]
        exact ih bank n h

lemma regList_append (a b : List Json) : ∀ bank : SoundBank,
    regList bank (a ++ b) = regList (regList bank a) b := by
  induction a with
  | nil => intro bank; rfl
  | cons x rest ih =>
    intro bank
    simp only [List.cons_append, regList]
    exact ih _

lemma loadArray_earlier (pre : List Json) : ∀ (bank : SoundBank) (j : Json)
    (rest : List Json) (e : ErrorCode),
    (∀ x ∈ pre, ∃ ed, registerEventFromJsonValue x = .ok ed) →
    registerEventFromJsonValue j = .error e →
    loadArray bank (pre ++ j :: rest) = (regList bank pre, .error e) := by
  induction pre with
  | nil =>
    intro bank j rest e _ hj
    simp [loadArray, hj, regList]
  | cons x xs ih =>
    intro bank j rest e hpre hj
    obtain ⟨ed, hx⟩ := hpre x (List.mem_cons_self _ _)
    simp only [List.cons_append, loadArray, hx, regList]
    exact ih _ j rest e (fun y hy => hpre y (List.mem_cons_of_mem _ hy)) hj

/-- C10: a successfully parsed top-level value that is not an array
makes LoadFromJsonFile return Ok and register nothing. -/
theorem c10_non_array_returns_ok_unchanged (bank : SoundBank) (j : Json)
    (h : j.isArr = false) :
    loadFromJsonValue bank j = (bank, .ok ()) := by
  cases j <;> first | rfl | simp [Json.isArr] at h

/-- Witness for C10 at a single event object. -/
theorem c10_non_array_witness :
    Json.isArr c10json = false ∧
    loadFromJsonValue [] c10json = ([], .ok ()) :=
  ⟨rfl, c10_non_array_returns_ok_unchanged [] c10json rfl⟩

/-- C7: when loading an array whose objects all register until the
first failing one, the call returns that first failure, the failing
object registers nothing, the failure is JsonParseError or
InvalidFormat, and every earlier successful event name stays
registered. -/
theorem c7_first_failure_keeps_prefix (bank : SoundBank) (pre : List Json)
    (j : Json) (rest : List Json) (e : ErrorCode)
    (hpre : ∀ x ∈ pre, ∃ ed, registerEventFromJsonValue x = .ok ed)
    (hj : registerEventFromJsonValue j = .error e) :
    loadFromJsonValue bank (.arr (pre ++ j :: rest)) = (regList bank pre, .error e) ∧
    (e = .jsonParseError ∨ e = .invalidFormat) ∧
    ∀ x ∈ pre, ∀ ed, registerEventFromJsonValue x = .ok ed →
      (lookupStr (regList bank pre) ed.name).isSome = true := by
  refine ⟨loadArray_earlier pre bank j rest e hpre hj, register_err_subset hj, ?_⟩
  intro x hx ed hed
  obtain ⟨s, t, rfl⟩ := List.append_of_mem hx
  rw [regList_append]
  have h1 : regList (regList bank s) (x :: t)
      = regList ((regList bank s).registerEvent ed) t := by
    rw [regList, hed]
  rw [h1]
  apply regList_preserves_isSome
  simp [SoundBank.registerEvent, lookup_insertStr_self]

/-- Witness for C7: one good event then one object missing its name. -/
theorem c7_first_failure_witness :
    loadFromJsonValue [] (.arr ([c7okJson] ++ c7badJson :: [])) =
      (regList [] [c7okJson], .error .invalidFormat) ∧
    (ErrorCode.invalidFormat = .jsonParseError ∨
      ErrorCode.invalidFormat = .invalidFormat) ∧
    (∀ x ∈ [c7okJson], ∀ ed, registerEventFromJsonValue x = .ok ed →
      (lookupStr (regList [] [c7okJson]) ed.name).isSome = true) :=
  c7_first_failure_keeps_prefix [] [c7okJson] c7badJson [] .invalidFormat
    (by
      intro x hx
      rw [List.mem_singleton] at hx
      subst hx
      exact ⟨_, rfl⟩)
    (by decide)

/-- C6 counterexample: the claim says the registered descriptor carries
the sounds array and playlist keys of the JSON; on this input the
parser accepts the object but the playlist keys are ignored, so the
descriptor keeps the defaults. -/
theorem c6_playlist_fields_counterexample :
    c6json.find? "sounds" = some (.arr [.str "a.ogg", .str "b.ogg"]) ∧
    c6json.find? "loopPlaylist" = some (.bool true) ∧
    c6json.find? "interval" = some (.num 2) ∧
    registerEventFromJsonValue c6json = .ok c6ed ∧
    c6ed.sounds = [] ∧
    (([] : List String) ≠ ["a.ogg", "b.ogg"]) ∧
    c6ed.loopPlaylist = false ∧
    c6ed.interval = 0 := by
  exact ⟨rfl, rfl, rfl, by decide, by decide, by decide, by decide, by decide⟩

/-- C6 amended: every descriptor RegisterEventFromJson accepts carries
the playlist defaults (empty sounds, single mode, no looping, zero
interval and start delay) no matter what the JSON contains. -/
theorem c6_playlist_fields_amended (j : Json) (ed : EventDescriptor)
    (h : registerEventFromJsonValue j = .ok ed) :
    ed.sounds = [] ∧ ed.playlistMode = .single ∧ ed.loopPlaylist = false ∧
    ed.interval = 0 ∧ ed.startDelay = 0 := by
  unfold registerEventFromJsonValue at h
  repeat' split at h
  all_goals first
    | exact Except.noConfusion h
    | (injection h with h2; subst h2; exact ⟨rfl, rfl, rfl, rfl, rfl⟩)

/-- Witness for the amended C6 at the concrete playlist-bearing input. -/
theorem c6_playlist_fields_amended_witness :
    c6ed.sounds = [] ∧ c6ed.playlistMode = .single ∧ c6ed.loopPlaylist = false ∧
    c6ed.interval = 0 ∧ c6ed.startDelay = 0 :=
  c6_playlist_fields_amended c6json c6ed (by decide)

/-! ### Ducker lemmas -/

lemma lookup_insertStr_ne {α : Type} (l : List (String × α)) (k n : String) (v : α)
    (h : n ≠ k) : lookupStr (insertStr l k v) n = lookupStr l n := by
  have hkn : ¬ k = n := fun he => h he.symm
  induction l with
  | nil =>
    simp only [insertStr, lookupStr]
    rw [if_neg hkn]
  | cons kv rest ih =>
    obtain ⟨k0, v0⟩ := kv
    by_cases hk : k0 = k
    · subst hk
      simp only [insertStr, if_pos rfl, lookupStr]
      rw [if_neg hkn, if_neg hkn]
    · simp only [insertStr, if_neg hk, lookupStr]
      by_cases hn : k0 = n
      · rw [if_pos hn, if_pos hn]
      · rw [if_neg hn, if_neg hn, ih]

lemma lookup_map_apply {α β : Type} (l : List (String × α)) (f : String → α → β)
    (n : String) :
    lookupStr (l.map fun kv => (kv.1, f kv.1 kv.2)) n = (lookupStr l n).map (f n) := by
  induction l with
  | nil => rfl
  | cons kv rest ih =>
    obtain ⟨k0, v0⟩ := kv
    by_cases hn : k0 = n
    · subst hn; simp [lookupStr]
    · simp [lookupStr, hn, ih]

lemma duckLoop_states_preserve (dt : ℚ) (active : String → Bool) :
    ∀ (rules : List DuckingRule) (states : List (String × DuckingState))
      (levels : List (String × ℚ)) (k : String),
      k ∉ rules.map keyOf →
      lookupStr (duckLoop dt active rules states levels).1 k = lookupStr states k := by
  intro rules
  induction rules with
  | nil => intro states levels k _; rfl
  | cons r0 rest ih =>
    intro states levels k hk
    simp only [List.map_cons, List.mem_cons] at hk
    push_neg at hk
    rw [duckLoop]
    rw [ih _ _ k hk.2]
    exact lookup_insertStr_ne _ _ _ _ hk.1

lemma duckLoop_main (dt : ℚ) (active : String → Bool) :
    ∀ (rules : List DuckingRule) (states : List (String × DuckingState))
      (levels : List (String × ℚ)),
      (rules.map keyOf).Nodup →
      (∀ r ∈ rules,
        lookupStr (duckLoop dt active rules states levels).1 (keyOf r)
          = some (stepState r (lookupD states (keyOf r)) dt (active r.sidechainBus))) ∧
      (∀ n, lookupStr (duckLoop dt active rules states levels).2 n
          = minListOpt (lookupStr levels n)
              ((rules.filter fun r => r.targetBus = n).map
                fun r => (stepState r (lookupD states (keyOf r)) dt
                  (active r.sidechainBus)).currentLevel)) := by
  intro rules
  induction rules with
  | nil =>
    intro states levels _
    exact ⟨by simp, fun n => by simp [duckLoop, List.filter_nil, minListOpt]⟩
  | cons r0 rest ih =>
    intro states levels hnd
    simp only [List.map_cons, List.nodup_cons] at hnd
    obtain ⟨hk0, hndrest⟩ := hnd
    have hkne : ∀ r ∈ rest, keyOf r ≠ keyOf r0 := by
      intro r hr he
      exact hk0 (he ▸ List.mem_map_of_mem keyOf hr)
    have hstates1 : ∀ r ∈ rest,
        lookupD (insertStr states (keyOf r0)
          (stepState r0 (lookupD states (keyOf r0)) dt (active r0.sidechainBus))) (keyOf r)
        = lookupD states (keyOf r) := by
      intro r hr
      unfold lookupD
      rw [lookup_insertStr_ne _ _ _ _ (hkne r hr)]
    constructor
    · intro r hr
      rcases List.mem_cons.mp hr with rfl | hr
      · rw [duckLoop]
        rw [duckLoop_states_preserve dt active rest _ _ _ (by
          intro hmem
          obtain ⟨r1, hr1, he1⟩ := List.mem_map.mp hmem
          exact hkne r1 hr1 he1)]
        exact lookup_insertStr_self _ _ _
      · rw [duckLoop]
        rw [(ih _ _ hndrest).1 r hr, hstates1 r hr]
    · intro n
      rw [duckLoop]
      rw [(ih _ _ hndrest).2 n]
      have hcongr : ((rest.filter fun r => r.targetBus = n).map
            fun r => (stepState r (lookupD (insertStr states (keyOf r0)
              (stepState r0 (lookupD states (keyOf r0)) dt (active r0.sidechainBus)))
              (keyOf r)) dt (active r.sidechainBus)).currentLevel)
          = ((rest.filter fun r => r.targetBus = n).map
            fun r => (stepState r (lookupD states (keyOf r)) dt
              (active r.sidechainBus)).currentLevel) := by
        apply List.map_congr_left
        intro r hr
        rw [hstates1 r (List.mem_of_mem_filter hr)]
      rw [hcongr]
      by_cases ht : r0.targetBus = n
      · subst ht
        cases hl : lookupStr levels r0.targetBus with
        | none =>
            rw [lookup_insertStr_self]
            simp [List.filter_cons, minListOpt]
        | some l =>
            rw [lookup_insertStr_self]
            simp [List.filter_cons, minListOpt]
      · cases hl : lookupStr levels r0.targetBus with
        | none =>
            rw [lookup_insertStr_ne _ _ _ _ (fun he => ht he.symm)]
            simp [List.filter_cons, ht]
        | some l =>
            rw [lookup_insertStr_ne _ _ _ _ (fun he => ht he.symm)]
            simp [List.filter_cons, ht]

/-- C8 amended: provided the rules' MakeKey strings are pairwise
distinct (as with colon-free bus names), every bus present in the map
receives exactly the minimum of the current levels of the rules
targeting it, and its volume is set exactly when that minimum differs
from the current volume by more than the 0.001 epsilon. -/
theorem c8_duck_min_applied (d : Ducker) (dt : ℚ) (buses : List (String × Bus))
    (active : String → Bool) (n : String) (b : Bus)
    (hkeys : (d.rules.map keyOf).Nodup)
    (hb : lookupStr buses n = some b) :
    lookupStr (d.Update dt buses active).2 n =
      some (match specRuleMin (d.Update dt buses active).1 n with
            | some lv => if 1/1000 < |b.volume - lv| then b.setVolume lv else b
            | none => b) := by
  obtain ⟨hst, hlv⟩ := duckLoop_main dt active d.rules d.states [] hkeys
  have hspec : specRuleMin (d.Update dt buses active).1 n
      = lookupStr (duckLoop dt active d.rules d.states []).2 n := by
    rw [hlv n]
    unfold specRuleMin
    have : ((d.Update dt buses active).1.rules.filter fun r => r.targetBus = n).map
          (fun r => (lookupD (d.Update dt buses active).1.states (keyOf r)).currentLevel)
        = ((d.rules.filter fun r => r.targetBus = n).map
          fun r => (stepState r (lookupD d.states (keyOf r)) dt
            (active r.sidechainBus)).currentLevel) := by
      show ((d.rules.filter fun r => r.targetBus = n).map
          (fun r => (lookupD (duckLoop dt active d.rules d.states []).1 (keyOf r)).currentLevel)) = _
      apply List.map_congr_left
      intro r hr
      unfold lookupD
      rw [hst r (List.mem_of_mem_filter hr)]
      rfl
    rw [this]
    rfl
  show lookupStr (buses.map fun nb =>
      (nb.1, applyDuck (duckLoop dt active d.rules d.states []).2 nb.1 nb.2)) n = _
  rw [lookup_map_apply buses (fun name bus =>
    applyDuck (duckLoop dt active d.rules d.states []).2 name bus) n, hb]
  rw [hspec]
  unfold applyDuck
  cases lookupStr (duckLoop dt active d.rules d.states []).2 n <;> rfl

/-- Witness for the amended C8 on a collision-free rule. -/
theorem c8_duck_min_applied_witness :
    lookupStr (c8wDucker.Update 1 c8wBuses c8wActive).2 "Music" =
      some (match specRuleMin (c8wDucker.Update 1 c8wBuses c8wActive).1 "Music" with
            | some lv => if 1/1000 < |({} : Bus).volume - lv|
                          then ({} : Bus).setVolume lv else ({} : Bus)
            | none => ({} : Bus)) :=
  c8_duck_min_applied c8wDucker 1 c8wBuses c8wActive "Music" {} (by decide) (by decide)

/-! ### Occlusion lemmas -/

lemma cppClamp01_le_one (x : ℚ) : cppClamp x 0 1 ≤ 1 := by
  unfold cppClamp
  split
  · norm_num
  · split
    · exact le_refl 1
    · next h1 h2 => exact le_of_not_lt h2

lemma accumulateHits_spec (p : OcclusionProcessor) (hits : List OcclusionHit) :
    accumulateHits p hits =
      ((hits.map fun h => (p.getMaterial h.materialName).obstruction
          * (1/2 + 1/2 * (min h.thickness 3 / 3))).sum,
       (hits.map fun h => (p.getMaterial h.materialName).occlusionBias).sum) := by
  have go : ∀ (l : List OcclusionHit) (a b : ℚ),
      l.foldl (fun acc hit =>
        let mat := p.getMaterial hit.materialName
        let thicknessFactor := min hit.thickness 3 / 3
        (acc.1 + mat.obstruction * (1/2 + 1/2 * thicknessFactor),
         acc.2 + mat.occlusionBias)) (a, b)
      = (a + (l.map fun h => (p.getMaterial h.materialName).obstruction
            * (1/2 + 1/2 * (min h.thickness 3 / 3))).sum,
         b + (l.map fun h => (p.getMaterial h.materialName).occlusionBias).sum) := by
    intro l
    induction l with
    | nil => intro a b; simp
    | cons h rest ih =>
      intro a b
      simp only [List.foldl_cons, List.map_cons, List.sum_cons]
      rw [ih]
      rw [Prod.mk.injEq]
      constructor <;> ring
  unfold accumulateHits
  rw [go]
  simp

/-- C5: when an enabled occlusion update with a callback runs past the
rate window, the produced obstruction, occlusion, target low-pass and
occlusion volume are exactly the spec formulas over the returned hit
list, and the obstruction never exceeds one. -/
theorem c5_occlusion_update_formulas (m : CMath) (p : OcclusionProcessor)
    (v : Voice) (lpos : Vec3) (dt : ℚ) (q : Vec3 → Vec3 → List OcclusionHit)
    (hE : p.enabled = true) (hQ : p.queryCallback = some q)
    (hW : ¬ (p.timeSinceLastUpdate + dt < 1 / p.updateRate)) :
    (occUpdate m p v lpos dt).2.obstruction = specObstruction p (q v.position lpos) ∧
    (occUpdate m p v lpos dt).2.obstruction ≤ 1 ∧
    (occUpdate m p v lpos dt).2.occlusion
      = specOcclusion p.occlusionThreshold
          ((occUpdate m p v lpos dt).2.obstruction) (specBias p (q v.position lpos)) ∧
    (occUpdate m p v lpos dt).2.targetLowPassFreq
      = specTargetLp m p
          (max ((occUpdate m p v lpos dt).2.obstruction)
               ((occUpdate m p v lpos dt).2.occlusion)) ∧
    (occUpdate m p v lpos dt).2.occlusionVolume
      = specOccVolume p
          (max ((occUpdate m p v lpos dt).2.obstruction)
               ((occUpdate m p v lpos dt).2.occlusion)) := by
  have hvred : (occUpdate m p v lpos dt).2
      = smoothValues m { p with timeSinceLastUpdate := 0 }
          (let totals := accumulateHits p (q v.position lpos)
           let v1 := { v with obstruction := cppClamp totals.1 0 1 }
           let occlusionValue := v1.obstruction + totals.2
           let v2 :=
             if p.occlusionThreshold ≤ occlusionValue then
               { v1 with occlusion :=
                   cppClamp ((occlusionValue - p.occlusionThreshold)
                     / (1 - p.occlusionThreshold)) 0 1 }
             else { v1 with occlusion := 0 }
           let combined : ℚ := max v2.obstruction v2.occlusion
           { v2 with
             targetLowPassFreq :=
               p.minLowPassFreq * m.pow (p.maxLowPassFreq / p.minLowPassFreq) (1 - combined)
             occlusionVolume := 1 - combined * p.maxVolumeReduction }) dt := by
    simp only [occUpdate, hE, hQ]
    rw [if_neg (by simp)]
    rw [if_neg hW]
  rw [hvred]
  simp only [smoothValues]
  rw [accumulateHits_spec]
  simp only
  refine ⟨?_, ?_, ?_, ?_, ?_⟩
  · unfold specObstruction
    split <;> rfl
  · split <;> exact cppClamp01_le_one _
  · unfold specOcclusion specBias
    split
    · next hthr => rw [if_neg (not_lt.mpr hthr)]
    · next hthr => rw [if_pos (lt_of_not_le hthr)]
  · unfold specTargetLp
    split <;> rfl
  · unfold specOccVolume
    split <;> rfl

/-- Witness for C5: a concrete wall, default configuration, a one
second step that exceeds the ten hertz window. -/
theorem c5_occlusion_update_formulas_witness :
    (occUpdate cmId c5proc {} ⟨0, 0, 0⟩ 1).2.obstruction
      = specObstruction c5proc (c5query ({} : Voice).position ⟨0, 0, 0⟩) ∧
    (occUpdate cmId c5proc {} ⟨0, 0, 0⟩ 1).2.obstruction ≤ 1 ∧
    (occUpdate cmId c5proc {} ⟨0, 0, 0⟩ 1).2.occlusion
      = specOcclusion c5proc.occlusionThreshold
          ((occUpdate cmId c5proc {} ⟨0, 0, 0⟩ 1).2.obstruction)
          (specBias c5proc (c5query ({} : Voice).position ⟨0, 0, 0⟩)) ∧
    (occUpdate cmId c5proc {} ⟨0, 0, 0⟩ 1).2.targetLowPassFreq
      = specTargetLp cmId c5proc
          (max ((occUpdate cmId c5proc {} ⟨0, 0, 0⟩ 1).2.obstruction)
               ((occUpdate cmId c5proc {} ⟨0, 0, 0⟩ 1).2.occlusion)) ∧
    (occUpdate cmId c5proc {} ⟨0, 0, 0⟩ 1).2.occlusionVolume
      = specOccVolume c5proc
          (max ((occUpdate cmId c5proc {} ⟨0, 0, 0⟩ 1).2.obstruction)
               ((occUpdate cmId c5proc {} ⟨0, 0, 0⟩ 1).2.occlusion)) :=
  c5_occlusion_update_formulas cmId c5proc {} ⟨0, 0, 0⟩ 1 c5query rfl rfl
    (by norm_num [c5proc])

lemma occUpdate_config (m : CMath) (p : OcclusionProcessor) (v : Voice)
    (l : Vec3) (dt : ℚ) :
    (occUpdate m p v l dt).1.enabled = p.enabled ∧
    (occUpdate m p v l dt).1.queryCallback = p.queryCallback ∧
    (occUpdate m p v l dt).1.updateRate = p.updateRate := by
  simp only [occUpdate, occDisabled]
  split
  · exact ⟨rfl, rfl, rfl⟩
  · split
    · exact ⟨rfl, rfl, rfl⟩
    · split
      · exact ⟨rfl, rfl, rfl⟩
      · exact ⟨rfl, rfl, rfl⟩

lemma occUpdate_acc (m : CMath) (p : OcclusionProcessor) (v : Voice)
    (l : Vec3) (dt : ℚ) (hE : p.enabled = true) (hQ : p.queryCallback.isSome = true) :
    (occUpdate m p v l dt).1.timeSinceLastUpdate
      = if p.timeSinceLastUpdate + dt < 1 / p.updateRate
        then p.timeSinceLastUpdate + dt else 0 := by
  obtain ⟨q, hq⟩ := Option.isSome_iff_exists.mp hQ
  simp only [occUpdate, hE, hq]
  rw [if_neg (by simp)]
  split
  · rfl
  · rfl

lemma occUpdate_smooth_only (m : CMath) (p : OcclusionProcessor) (v : Voice)
    (l : Vec3) (dt : ℚ) (hE : p.enabled = true)
    (hQ : p.queryCallback.isSome = true) (hF : occQueryFlag p dt = false) :
    (occUpdate m p v l dt).2 = smoothValues m p v dt ∧
    (occUpdate m p v l dt).1
      = { p with timeSinceLastUpdate := p.timeSinceLastUpdate + dt } := by
  obtain ⟨q, hq⟩ := Option.isSome_iff_exists.mp hQ
  have hc : p.timeSinceLastUpdate + dt < 1 / p.updateRate := by
    unfold occQueryFlag at hF
    rw [hE, hq] at hF
    simpa using hF
  simp only [occUpdate, hE, hq]
  rw [if_neg (by simp)]
  rw [if_pos hc]
  exact ⟨rfl, rfl⟩

lemma occRun_flags (m : CMath) : ∀ (calls : List OccCall) (p : OcclusionProcessor),
    p.enabled = true → p.queryCallback.isSome = true →
    (occRun m p calls).2.map Prod.fst
      = specWindowFlags (1 / p.updateRate) p.timeSinceLastUpdate
          (calls.map (fun c => c.dt)) := by
  intro calls
  induction calls with
  | nil => intro p _ _; rfl
  | cons c rest ih =>
    intro p hE hQ
    obtain ⟨hE1, hQ1, hR1⟩ := occUpdate_config m p c.voice c.listenerPos c.dt
    have htail := ih (occUpdate m p c.voice c.listenerPos c.dt).1
      (by rw [hE1, hE]) (by rw [hQ1]; exact hQ)
    simp only [occRun, List.map_cons]
    rw [htail, hR1, occUpdate_acc m p c.voice c.listenerPos c.dt hE hQ]
    rw [specWindowFlags]
    by_cases hc : p.timeSinceLastUpdate + c.dt < 1 / p.updateRate
    · rw [if_pos hc, if_pos hc]
      have hflag : occQueryFlag p c.dt = false := by
        unfold occQueryFlag
        rw [hE]
        simp [hQ]
        rw [one_div] at hc
        exact hc
      rw [hflag]
    · rw [if_neg hc, if_neg hc]
      have hflag : occQueryFlag p c.dt = true := by
        unfold occQueryFlag
        rw [hE]
        simp [hQ]
        rw [one_div] at hc
        exact le_of_not_lt hc
      rw [hflag]

lemma specWindowFlags_gap (w : ℚ) : ∀ (pre : List ℚ) (acc d : ℚ) (rest : List ℚ),
    specWindowFlags w acc (pre ++ d :: rest)
      = (pre.map fun _ => false) ++ true :: specWindowFlags w 0 rest →
    w ≤ acc + pre.sum + d := by
  intro pre
  induction pre with
  | nil =>
    intro acc d rest h
    simp only [List.nil_append, List.map_nil, specWindowFlags] at h
    by_cases hc : acc + d < w
    · rw [if_pos hc] at h
      simp at h
    · simp only [List.sum_nil]
      linarith [le_of_not_lt hc]
  | cons dt0 pre ih =>
    intro acc d rest h
    simp only [List.cons_append, List.map_cons, specWindowFlags] at h
    by_cases hc : acc + dt0 < w
    · rw [if_pos hc] at h
      simp only [List.cons_append, List.cons.injEq] at h
      have := ih (acc + dt0) d rest h.2
      simp only [List.sum_cons]
      linarith
    · rw [if_neg hc] at h
      simp at h

/-- C9: the occlusion rate limiter lives in the processor, not the
voice: over any sequence of per-voice update calls on an enabled
processor with a callback, the pattern of calls that issue a raycast is
exactly the window schedule computed from the delta times alone; a call
below the window only smooths the voice's DSP values while advancing
the shared accumulator; and between one query and the next the
accumulated delta time is at least one rate window. -/
theorem c9_shared_rate_limiter (m : CMath) (p : OcclusionProcessor)
    (calls : List OccCall)
    (hE : p.enabled = true) (hQ : p.queryCallback.isSome = true) :
    ((occRun m p calls).2.map Prod.fst
      = specWindowFlags (1 / p.updateRate) p.timeSinceLastUpdate
          (calls.map (fun c => c.dt))) ∧
    (∀ (p2 : OcclusionProcessor) (v : Voice) (l : Vec3) (dt : ℚ),
      p2.enabled = true → p2.queryCallback.isSome = true →
      occQueryFlag p2 dt = false →
      (occUpdate m p2 v l dt).2 = smoothValues m p2 v dt ∧
      (occUpdate m p2 v l dt).1
        = { p2 with timeSinceLastUpdate := p2.timeSinceLastUpdate + dt }) ∧
    (∀ (pre : List ℚ) (acc d : ℚ) (rest : List ℚ),
      specWindowFlags (1 / p.updateRate) acc (pre ++ d :: rest)
        = (pre.map fun _ => false) ++ true :: specWindowFlags (1 / p.updateRate) 0 rest →
      1 / p.updateRate ≤ acc + pre.sum + d) :=
  ⟨occRun_flags m calls p hE hQ,
   fun p2 v l dt h1 h2 h3 => occUpdate_smooth_only m p2 v l dt h1 h2 h3,
   fun pre acc d rest h => specWindowFlags_gap (1 / p.updateRate) pre acc d rest h⟩

/-- Witness for C9: two calls for different voices against the shared
processor, the second inside the window opened by the first. -/
theorem c9_shared_rate_limiter_witness :
    ((occRun cmId c9proc c9calls).2.map Prod.fst
      = specWindowFlags (1 / c9proc.updateRate) c9proc.timeSinceLastUpdate
          (c9calls.map (fun c => c.dt))) ∧
    (∀ (p2 : OcclusionProcessor) (v : Voice) (l : Vec3) (dt : ℚ),
      p2.enabled = true → p2.queryCallback.isSome = true →
      occQueryFlag p2 dt = false →
      (occUpdate cmId p2 v l dt).2 = smoothValues cmId p2 v dt ∧
      (occUpdate cmId p2 v l dt).1
        = { p2 with timeSinceLastUpdate := p2.timeSinceLastUpdate + dt }) ∧
    (∀ (pre : List ℚ) (acc d : ℚ) (rest : List ℚ),
      specWindowFlags (1 / c9proc.updateRate) acc (pre ++ d :: rest)
        = (pre.map fun _ => false) ++ true
            :: specWindowFlags (1 / c9proc.updateRate) 0 rest →
      1 / c9proc.updateRate ≤ acc + pre.sum + d) :=
  c9_shared_rate_limiter cmId c9proc c9calls rfl rfl

/-! ### Mix zone arbitration lemmas -/

lemma zoneLE_trans {a b c : MixZone} (h1 : zoneLE a b) (h2 : zoneLE b c) : zoneLE a c := by
  unfold zoneLE at *
  rcases h1 with h1 | ⟨h1, h1b⟩ <;> rcases h2 with h2 | ⟨h2, h2b⟩
  · exact Or.inl (h1.trans h2)
  · exact Or.inl (h2 ▸ h1)
  · exact Or.inl (h1 ▸ h2)
  · exact Or.inr ⟨h1.trans h2, h1b.trans h2b⟩

lemma pickBest_some (zones : List MixZone) : ∀ b : MixZone,
    ∃ w, pickBest zones (some b) = some w := by
  induction zones with
  | nil => intro b; exact ⟨b, rfl⟩
  | cons z rest ih =>
    intro b
    rw [pickBest]
    split
    · split
      · exact ih z
      · exact ih b
    · exact ih b

lemma pickBest_go (zones : List MixZone) : ∀ (b w : MixZone),
    pickBest zones (some b) = some w →
    (w = b ∨ (w ∈ zones ∧ 0 < w.blendFactor)) ∧ zoneLE b w ∧
    ∀ z ∈ zones, 0 < z.blendFactor → zoneLE z w := by
  induction zones with
  | nil =>
    intro b w h
    simp only [pickBest, Option.some.injEq] at h
    subst h
    exact ⟨Or.inl rfl, Or.inr ⟨rfl, le_refl _⟩, by simp⟩
  | cons z rest ih =>
    intro b w h
    rw [pickBest] at h
    split at h
    · next hzact =>
      split at h
      · next hrepl =>
        obtain ⟨hmem, hle, hall⟩ := ih z w h
        have hbz : zoneLE b z := by
          rcases hrepl with h1 | ⟨h1, h2⟩
          · exact Or.inl h1
          · exact Or.inr ⟨h1.symm, le_of_lt h2⟩
        refine ⟨?_, zoneLE_trans hbz hle, ?_⟩
        · rcases hmem with rfl | ⟨hm, ha⟩
          · exact Or.inr ⟨List.mem_cons_self _ _, hzact⟩
          · exact Or.inr ⟨List.mem_cons_of_mem _ hm, ha⟩
        · intro z1 hz1 hz1a
          rcases List.mem_cons.mp hz1 with rfl | hz1
          · exact hle
          · exact hall z1 hz1 hz1a
      · next hkeep =>
        obtain ⟨hmem, hle, hall⟩ := ih b w h
        push_neg at hkeep
        have hzb : zoneLE z b := by
          obtain ⟨hk1, hk2⟩ := hkeep
          rcases Nat.lt_or_ge z.priority b.priority with hlt | hge
          · exact Or.inl hlt
          · have : z.priority = b.priority := le_antisymm (by omega) hge
            exact Or.inr ⟨this, le_of_not_lt (by intro hc; exact absurd hc (by simpa [this] using hk2 this))⟩
        refine ⟨?_, hle, ?_⟩
        · rcases hmem with rfl | ⟨hm, ha⟩
          · exact Or.inl rfl
          · exact Or.inr ⟨List.mem_cons_of_mem _ hm, ha⟩
        · intro z1 hz1 hz1a
          rcases List.mem_cons.mp hz1 with rfl | hz1
          · exact zoneLE_trans hzb hle
          · exact hall z1 hz1 hz1a
    · next hzinact =>
      obtain ⟨hmem, hle, hall⟩ := ih b w h
      refine ⟨?_, hle, ?_⟩
      · rcases hmem with rfl | ⟨hm, ha⟩
        · exact Or.inl rfl
        · exact Or.inr ⟨List.mem_cons_of_mem _ hm, ha⟩
      · intro z1 hz1 hz1a
        rcases List.mem_cons.mp hz1 with rfl | hz1
        · exact absurd hz1a hzinact
        · exact hall z1 hz1 hz1a

lemma pickBest_start (zones : List MixZone) (w : MixZone)
    (h : pickBest zones none = some w) :
    (w ∈ zones ∧ 0 < w.blendFactor) ∧
    ∀ z ∈ zones, 0 < z.blendFactor → zoneLE z w := by
  induction zones with
  | nil => simp [pickBest] at h
  | cons z rest ih =>
    rw [pickBest] at h
    split at h
    · next hzact =>
      obtain ⟨hmem, hle, hall⟩ := pickBest_go rest z w h
      refine ⟨?_, ?_⟩
      · rcases hmem with rfl | ⟨hm, ha⟩
        · exact ⟨List.mem_cons_self _ _, hzact⟩
        · exact ⟨List.mem_cons_of_mem _ hm, ha⟩
      · intro z1 hz1 hz1a
        rcases List.mem_cons.mp hz1 with rfl | hz1
        · exact hle
        · exact hall z1 hz1 hz1a
    · next hzinact =>
      obtain ⟨⟨hm, ha⟩, hall⟩ := ih h
      refine ⟨⟨List.mem_cons_of_mem _ hm, ha⟩, ?_⟩
      intro z1 hz1 hz1a
      rcases List.mem_cons.mp hz1 with rfl | hz1
      · exact absurd hz1a hzinact
      · exact hall z1 hz1 hz1a

lemma pickBest_start_exists (zones : List MixZone)
    (h : ∃ z ∈ zones, 0 < z.blendFactor) :
    ∃ w, pickBest zones none = some w := by
  induction zones with
  | nil => simp at h
  | cons z rest ih =>
    rw [pickBest]
    split
    · exact pickBest_some rest z
    · next hzin =>
      obtain ⟨z1, hz1, hz1a⟩ := h
      rcases List.mem_cons.mp hz1 with rfl | hz1
      · exact absurd hz1a hzin
      · exact ih ⟨z1, hz1, hz1a⟩

lemma pickBest_none_of_inactive (zones : List MixZone)
    (h : ∀ z ∈ zones, ¬ 0 < z.blendFactor) :
    pickBest zones none = none := by
  induction zones with
  | nil => rfl
  | cons z rest ih =>
    rw [pickBest, if_neg (h z (List.mem_cons_self _ _))]
    exact ih fun z1 hz1 => h z1 (List.mem_cons_of_mem _ hz1)

lemma foldApply_preserve (states : List (String × ℚ)) :
    ∀ (buses : List (String × Bus)) (fade : ℚ) (n : String),
      n ∉ states.map Prod.fst →
      lookupStr (foldApply states buses fade) n = lookupStr buses n := by
  induction states with
  | nil => intro buses fade n _; rfl
  | cons kv rest ih =>
    obtain ⟨bn, v⟩ := kv
    intro buses fade n hn
    simp only [List.map_cons, List.mem_cons] at hn
    push_neg at hn
    rw [foldApply, ih _ _ _ hn.2]
    cases hb : lookupStr buses bn
    · rfl
    · exact lookup_insertStr_ne _ _ _ _ hn.1

lemma foldApply_spec (states : List (String × ℚ)) :
    ∀ (buses : List (String × Bus)) (fade : ℚ) (n : String) (v : ℚ) (b : Bus),
      (states.map Prod.fst).Nodup →
      (n, v) ∈ states →
      lookupStr buses n = some b →
      lookupStr (foldApply states buses fade) n = some (b.setTargetVolume v fade) := by
  induction states with
  | nil => intro _ _ _ _ _ _ hm; simp at hm
  | cons kv rest ih =>
    obtain ⟨bn, v0⟩ := kv
    intro buses fade n v b hnd hm hb
    simp only [List.map_cons, List.nodup_cons] at hnd
    obtain ⟨hbn, hndrest⟩ := hnd
    rcases List.mem_cons.mp hm with heq | hm
    · rw [Prod.mk.injEq] at heq
      obtain ⟨rfl, rfl⟩ := heq
      rw [foldApply, hb]
      rw [foldApply_preserve rest _ fade n hbn]
      exact lookup_insertStr_self _ _ _
    · have hne : bn ≠ n := by
        intro he
        exact hbn (he ▸ List.mem_map_of_mem Prod.fst hm)
      rw [foldApply]
      cases hb0 : lookupStr buses bn
      · exact ih _ fade n v b hndrest hm hb
      · refine ih _ fade n v b hndrest hm ?_
        rw [lookup_insertStr_ne _ _ _ _ (fun he => hne he.symm)]
        exact hb

lemma mixState_set_active_self (s : MixState) (n : String)
    (h : s.activeMixZone = n) : { s with activeMixZone := n } = s := by
  cases s
  simp only at h
  rw [h]

/-- C4: on a tick with at least one active mix zone, exactly one winner
is selected and it dominates every active zone by priority then blend;
the state becomes the winner's snapshot applied with fade equal to its
blend times its fade-in time, so every bus named in that snapshot fades
to the stored volume; and on a tick where no zone is active while one
was, every bus is retargeted to volume one over half a second. -/
theorem c4_mix_zone_arbitration (m : CMath) (s : MixState) (pos : Vec3)
    (hnames : ∀ z ∈ s.mixZones.map (MixZone.update m pos), z.name ≠ "") :
    ((∃ z ∈ s.mixZones.map (MixZone.update m pos), 0 < z.blendFactor) →
      ∃ w, pickBest (s.mixZones.map (MixZone.update m pos)) none = some w ∧
        w ∈ s.mixZones.map (MixZone.update m pos) ∧ 0 < w.blendFactor ∧
        (∀ z ∈ s.mixZones.map (MixZone.update m pos), 0 < z.blendFactor → zoneLE z w) ∧
        updateMixZones m s pos =
          applySnapshot
            { s with mixZones := s.mixZones.map (MixZone.update m pos),
                     activeMixZone := w.name }
            w.snapshotName (w.blendFactor * w.fadeInTime) ∧
        (∀ snap, lookupStr s.snapshots w.snapshotName = some snap →
          (snap.map Prod.fst).Nodup →
          ∀ n v b, (n, v) ∈ snap → lookupStr s.buses n = some b →
            lookupStr (updateMixZones m s pos).buses n
              = some (b.setTargetVolume v (w.blendFactor * w.fadeInTime)))) ∧
    ((∀ z ∈ s.mixZones.map (MixZone.update m pos), ¬ 0 < z.blendFactor) →
      s.activeMixZone ≠ "" →
      (updateMixZones m s pos).activeMixZone = "" ∧
      ∀ n b, lookupStr s.buses n = some b →
        lookupStr (updateMixZones m s pos).buses n = some (b.setTargetVolume 1 (1/2))) := by
  constructor
  · intro hex
    obtain ⟨w, hw⟩ := pickBest_start_exists _ hex
    obtain ⟨⟨hwmem, hwact⟩, hdom⟩ := pickBest_start _ w hw
    have hwname : w.name ≠ "" := hnames w hwmem
    have hupd : updateMixZones m s pos =
        applySnapshot
          { s with mixZones := s.mixZones.map (MixZone.update m pos),
                   activeMixZone := w.name }
          w.snapshotName (w.blendFactor * w.fadeInTime) := by
      simp only [updateMixZones, hw]
      by_cases hact : w.name = s.activeMixZone
      · rw [if_neg (by simpa using hact)]
        have := mixState_set_active_self
          { s with mixZones := s.mixZones.map (MixZone.update m pos) } w.name (by simpa using hact.symm)
        rw [← this]
      · rw [if_pos (by simpa using hact)]
        rw [if_neg (fun hc => hwname hc.2)]
    refine ⟨w, hw, hwmem, hwact, hdom, hupd, ?_⟩
    intro snap hsnap hnd n v b hnv hb
    rw [hupd]
    unfold applySnapshot
    simp only
    rw [hsnap]
    simp only
    exact foldApply_spec snap s.buses _ n v b hnd hnv hb
  · intro hnone hactive
    have hpick := pickBest_none_of_inactive _ hnone
    have hupd : updateMixZones m s pos =
        { resetBusVolumes { s with mixZones := s.mixZones.map (MixZone.update m pos) } (1/2)
          with activeMixZone := "" } := by
      simp only [updateMixZones, hpick]
      rw [if_pos (by simpa using fun he => hactive he.symm)]
      rw [if_pos (by exact ⟨hactive, trivial⟩)]
    rw [hupd]
    refine ⟨rfl, ?_⟩
    intro n b hb
    show lookupStr ((s.buses.map fun nb => (nb.1, nb.2.setTargetVolume 1 (1/2)))) n
      = some (b.setTargetVolume 1 (1/2))
    rw [lookup_map_apply s.buses (fun _ bus => bus.setTargetVolume 1 (1/2)) n, hb]
    rfl

/-- Witness for C4: one zone containing the listener wins and its
snapshot is applied with fade equal to blend times fade-in. -/
theorem c4_mix_zone_arbitration_witness :
    (∃ z ∈ c4state.mixZones.map (MixZone.update cmId ⟨0, 0, 0⟩), 0 < z.blendFactor) ∧
    (∃ w, pickBest (c4state.mixZones.map (MixZone.update cmId ⟨0, 0, 0⟩)) none = some w ∧
      w ∈ c4state.mixZones.map (MixZone.update cmId ⟨0, 0, 0⟩) ∧ 0 < w.blendFactor ∧
      (∀ z ∈ c4state.mixZones.map (MixZone.update cmId ⟨0, 0, 0⟩),
        0 < z.blendFactor → zoneLE z w) ∧
      updateMixZones cmId c4state ⟨0, 0, 0⟩ =
        applySnapshot
          { c4state with mixZones := c4state.mixZones.map (MixZone.update cmId ⟨0, 0, 0⟩),
                         activeMixZone := w.name }
          w.snapshotName (w.blendFactor * w.fadeInTime) ∧
      (∀ snap, lookupStr c4state.snapshots w.snapshotName = some snap →
        (snap.map Prod.fst).Nodup →
        ∀ n v b, (n, v) ∈ snap → lookupStr c4state.buses n = some b →
          lookupStr (updateMixZones cmId c4state ⟨0, 0, 0⟩).buses n
            = some (b.setTargetVolume v (w.blendFactor * w.fadeInTime)))) :=
  ⟨by simp [c4state, c4zone, MixZone.update, mixDistance, MixZone.computeBlend, cmId],
   (c4_mix_zone_arbitration cmId c4state ⟨0, 0, 0⟩
      (by simp [c4state, c4zone, MixZone.update, mixDistance, MixZone.computeBlend, cmId])).1
    (by simp [c4state, c4zone, MixZone.update, mixDistance, MixZone.computeBlend, cmId])⟩

/-- C8 counterexample: with the colliding keys A:B plus C and A plus
B:C the two rules share one state entry; the bus named A:B is set to the
mid-loop value 0 even though the final current level of its only rule
is 1, so the applied multiplier is not the minimum of the current
levels of the rules targeting the bus. -/
theorem c8_key_collision_counterexample :
    (lookupStr (c8ducker.Update 1 c8buses c8active).2 "A:B").map Bus.volume = some 0 ∧
    specRuleMin (c8ducker.Update 1 c8buses c8active).1 "A:B" = some 1 ∧
    (0 : ℚ) ≠ 1 := by
  have hduck : c8ducker = { rules := [c8r1, c8r2], states := [("A:B:C", {})] } := by
    decide
  have e1 : stepState c8r1 (lookupD [("A:B:C", {})] (keyOf c8r1)) 1
        (c8active c8r1.sidechainBus)
      = { active := true, currentLevel := 0, holdTimer := 0 } := by
    simp [stepState, c8r1, c8active, lookupD, lookupStr, keyOf, makeKey]
    norm_num
  have e2 : stepState c8r2 (lookupD (insertStr [("A:B:C", {})] (keyOf c8r1)
          { active := true, currentLevel := 0, holdTimer := 0 }) (keyOf c8r2)) 1
        (c8active c8r2.sidechainBus)
      = { active := false, currentLevel := 1, holdTimer := 0 } := by
    simp [stepState, c8r2, c8active, c8r1, lookupD, lookupStr, insertStr, keyOf, makeKey]
    norm_num
  have hloop : duckLoop 1 c8active [c8r1, c8r2] [("A:B:C", {})] []
      = ([("A:B:C", { active := false, currentLevel := 1, holdTimer := 0 })],
         [("A:B", 0), ("A", 1)]) := by
    simp only [duckLoop, e1, e2]
    decide
  have hupd : (c8ducker.Update 1 c8buses c8active).2
      = [("A:B", Bus.setVolume {} 0), ("A", ({} : Bus))] := by
    rw [Ducker.Update, hduck]
    simp only [hloop]
    simp only [c8buses, List.map_cons, List.map_nil]
    simp [applyDuck, lookupStr, Bus.setVolume]
    norm_num
  have hstates : (c8ducker.Update 1 c8buses c8active).1.states
      = [("A:B:C", { active := false, currentLevel := 1, holdTimer := 0 })] := by
    rw [Ducker.Update, hduck]
    simp only [hloop]
  have hrules : (c8ducker.Update 1 c8buses c8active).1.rules = [c8r1, c8r2] := by
    rw [Ducker.Update, hduck]
  refine ⟨?_, ?_, by norm_num⟩
  · rw [hupd]
    simp [lookupStr, Bus.setVolume]
  · unfold specRuleMin
    rw [hrules, hstates]
    decide

end Orpheus
